import Mathlib

/-!
Formal model of the Walletwise group-expense ledger.

The definitions below are a shallow embedding of the group-expense data
model and data-access functions of `src/db.py` (and of the equal-split
remainder policy of `src/pages/4_👥_Group_Expenses.py`).  Monetary
amounts are modelled as exact rationals (the code stores decimal amounts;
the spec mandates fixed-point arithmetic for the 0.01-tolerance
reconciliation).  The SQLite tables become lists of records, SQL joins
become list products with filters, and the row-id autoincrement counters
become explicit `next_*` fields of the store.  Wall-clock timestamps
(`datetime.now().isoformat()`) are passed in as an explicit `now : String`
parameter.  All operations are modelled on the full schema produced by
`init_db` (every `_column_exists` probe in the Python code answers true
on a freshly initialised database, so the corresponding branches are the
ones taken).  Fallible Python code (raised exceptions) is modelled with
`Except`; functions that catch their own exceptions and return a failure
flag are modelled with `Bool`.
-/

namespace Walletwise

/-- A row of the `users` table (`id`, `name`; the auth-only columns
`email`/`password_hash` play no role in the group-expense subsystem). -/
structure User where
  id : Nat
  name : String
  deriving DecidableEq, Repr

/-- A row of the `group_expenses` table created by `init_db`. -/
structure GroupExpense where
  id : Nat
  title : String
  amount : ℚ
  payer_id : Nat
  category : String
  date : String
  description : String
  currency : String
  is_settled : Bool
  settled_at : Option String
  deriving DecidableEq, Repr

/-- A row of the `group_expense_shares` table created by `init_db`. -/
structure ExpenseShare where
  id : Nat
  group_expense_id : Nat
  user_id : Nat
  share_amount : ℚ
  is_settled : Bool
  settled_at : Option String
  settlement_method : Option String
  settlement_reference : Option String
  deriving DecidableEq, Repr

/-- One element of the `shares` argument of `add_group_expense`:
a dict with keys `user_id` and `amount`. -/
structure ShareInput where
  user_id : Nat
  amount : ℚ
  deriving DecidableEq, Repr

/-- The ledger store: the three tables the group-expense subsystem
touches, plus the autoincrement counters for the two row-id columns. -/
structure Store where
  users : List User
  expenses : List GroupExpense
  shares : List ExpenseShare
  next_expense_id : Nat
  next_share_id : Nat
  deriving DecidableEq, Repr

/-- Python truthiness of an `Optional[str]` argument: `None` and the
empty string are falsy (`if has_settlement_method and method:`). -/
def truthy : Option String → Bool
  | none => false
  | some s => s ≠ ""

/-- Python `round(x, 2)`.  Modelled as round-half-up on exact rationals;
Python rounds binary floats half-to-even, which only differs on exact
ties, and none of the quantities in this development hits a tie. -/
def round2 (x : ℚ) : ℚ := (⌊x * 100 + 1 / 2⌋ : ℚ) / 100

/-- `validate_expense_shares(amount, shares, tolerance=0.01)`:
`abs(sum(share.get("amount", 0) for share in shares) - amount) <= tolerance`. -/
def validate_expense_shares (amount : ℚ) (shares : List ShareInput)
    (tolerance : ℚ := 1 / 100) : Bool :=
  decide (|(shares.map (·.amount)).sum - amount| ≤ tolerance)

/-- `calculate_equal_shares(amount, user_count)`: `round(amount / user_count, 2)`.
The Python division raises `ZeroDivisionError` when `user_count == 0`,
modelled as `none`. -/
def calculate_equal_shares (amount : ℚ) (user_count : Nat) : Option ℚ :=
  if user_count = 0 then none
  else some (round2 (amount / (user_count : ℚ)))

/-- The equal-split computation of the Group Expenses page
(`4_👥_Group_Expenses.py`, lines 183-194): `share_per_person =
round(amount / total_people, 2)`, then the current user absorbs the
rounding remainder `amount - share_per_person * (total_people - 1)`.
Returns `(per head share of the others, self share)`; `none` models the
`ZeroDivisionError` of `total_people == 0`. -/
def equal_split (amount : ℚ) (total_people : Nat) : Option (ℚ × ℚ) :=
  if total_people = 0 then none
  else
    let share_per_person := round2 (amount / (total_people : ℚ))
    let total_allocated := share_per_person * ((total_people - 1 : Nat) : ℚ)
    some (share_per_person, amount - total_allocated)

/-- The share rows inserted by the insertion loop of `add_group_expense`:
one row per input share, with consecutive autoincrement ids starting at
`startId`, all unsettled. -/
def mkShares (geid : Nat) (startId : Nat) : List ShareInput → List ExpenseShare
  | [] => []
  | sh :: rest =>
      { id := startId, group_expense_id := geid, user_id := sh.user_id,
        share_amount := sh.amount, is_settled := false, settled_at := none,
        settlement_method := none, settlement_reference := none }
        :: mkShares geid (startId + 1) rest

/-- The expense row inserted by `add_group_expense`. -/
def mkExpense (st : Store) (title : String) (amount : ℚ) (payer_id : Nat)
    (category date description currency : String) : GroupExpense :=
  { id := st.next_expense_id, title := title, amount := amount,
    payer_id := payer_id, category := category, date := date,
    description := description, currency := currency,
    is_settled := false, settled_at := none }

/-- `add_group_expense`: validates that the shares reconcile with the
total (`abs(total_shares - amount) > 0.01` raises `ValueError`), then
inserts the expense row and one share row per input share in a single
transaction.  A failed SQLite constraint (payer or share user violating
the `FOREIGN KEY` to `users`, or two shares for the same user violating
`UNIQUE(group_expense_id, user_id)`) raises, and the `except` branch
rolls the transaction back, so on any error the store is unchanged. -/
def add_group_expense (st : Store) (title : String) (amount : ℚ)
    (payer_id : Nat) (category date description : String)
    (shares : List ShareInput) (currency : String := "INR") :
    Except String Nat × Store :=
  let total_shares := (shares.map (·.amount)).sum
  if |total_shares - amount| > 1 / 100 then
    (.error "Shares total does not match expense amount", st)
  else if ¬ st.users.any (fun u => u.id == payer_id) then
    (.error "FOREIGN KEY constraint failed", st)
  else if shares.any (fun sh => ¬ st.users.any (fun u => u.id == sh.user_id)) then
    (.error "FOREIGN KEY constraint failed", st)
  else if ¬ (shares.map (·.user_id)).Nodup then
    (.error "UNIQUE constraint failed", st)
  else
    (.ok st.next_expense_id,
     { st with
        expenses := st.expenses ++
          [mkExpense st title amount payer_id category date description currency],
        shares := st.shares ++ mkShares st.next_expense_id st.next_share_id shares,
        next_expense_id := st.next_expense_id + 1,
        next_share_id := st.next_share_id + shares.length })

/-- The effect of the share `UPDATE` of `settle_expense_share` on one
row: the row matched by `WHERE id = ? AND user_id = ?` is marked settled
(with `settlement_method`/`settlement_reference` written only for truthy
arguments), every other row is untouched. -/
def settleShareRow (share_id user_id : Nat) (method reference : Option String)
    (now : String) (s : ExpenseShare) : ExpenseShare :=
  if s.id == share_id && s.user_id == user_id then
    { s with is_settled := true, settled_at := some now,
             settlement_method :=
               if truthy method then method else s.settlement_method,
             settlement_reference :=
               if truthy reference then reference else s.settlement_reference }
  else s

/-- The effect of the expense `UPDATE` of `settle_expense_share` on one
row: the row matched by `WHERE id = ?` is marked settled. -/
def settleExpenseRow (geid : Nat) (now : String) (e : GroupExpense) :
    GroupExpense :=
  if e.id == geid then { e with is_settled := true, settled_at := some now }
  else e

/-- The `SELECT COUNT(*) ... WHERE group_expense_id = ? AND is_settled = 0`
re-count performed by `settle_expense_share` after the share update. -/
def unsettledCount (shares : List ExpenseShare) (geid : Nat) : Nat :=
  (shares.filter (fun s => s.group_expense_id == geid && !s.is_settled)).length

/-- `settle_expense_share(share_id, user_id, method, reference)`: looks
up the share by `id` and owning `user_id` (returns `False` when absent),
marks it settled with a timestamp, recording `settlement_method` /
`settlement_reference` only when the argument is truthy; then re-counts
the unsettled shares of the parent expense and, exactly when none
remain, marks the parent expense settled with its own timestamp. -/
def settle_expense_share (st : Store) (share_id user_id : Nat)
    (method reference : Option String) (now : String) : Bool × Store :=
  match st.shares.find? (fun s => s.id == share_id && s.user_id == user_id) with
  | none => (false, st)
  | some sh =>
    let geid := sh.group_expense_id
    let shares1 := st.shares.map (settleShareRow share_id user_id method reference now)
    let expenses1 :=
      if unsettledCount shares1 geid = 0 then
        st.expenses.map (settleExpenseRow geid now)
      else st.expenses
    (true, { st with shares := shares1, expenses := expenses1 })

/-- The result dict of `settle_multiple_expenses`. -/
structure SettleResult where
  settled_count : Nat
  failed_count : Nat
  settled_amount : ℚ
  deriving DecidableEq, Repr

/-- One iteration of the loop of `settle_multiple_expenses`: look up the
unsettled share of the user for this expense id; if present, settle it
and accumulate the count and the amount, otherwise (or if the settlement
call fails) count a failure. -/
def settleManyStep (user_id : Nat) (method reference : Option String)
    (now : String) (acc : SettleResult × Store) (eid : Nat) :
    SettleResult × Store :=
  match acc.2.shares.find? (fun sh =>
      sh.group_expense_id == eid && sh.user_id == user_id && !sh.is_settled) with
  | some sh =>
      let step := settle_expense_share acc.2 sh.id user_id method reference now
      if step.1 then
        ({ acc.1 with settled_count := acc.1.settled_count + 1,
                      settled_amount := acc.1.settled_amount + sh.share_amount },
         step.2)
      else
        ({ acc.1 with failed_count := acc.1.failed_count + 1 }, step.2)
  | none => ({ acc.1 with failed_count := acc.1.failed_count + 1 }, acc.2)

/-- `settle_multiple_expenses(user_id, expense_ids, method, reference)`:
runs `settleManyStep` over every expense id in the input, starting from
zero counters; no item failure aborts the loop. -/
def settle_multiple_expenses (st : Store) (user_id : Nat)
    (expense_ids : List Nat) (method reference : Option String)
    (now : String) : SettleResult × Store :=
  expense_ids.foldl (settleManyStep user_id method reference now) (⟨0, 0, 0⟩, st)

/-- One entry of the `owes_to` breakdown returned by
`get_user_balance_summary`: one SQL `GROUP BY ge.payer_id, u.name` group. -/
structure OwesEntry where
  payer_id : Nat
  payer_name : String
  total_owed : ℚ
  deriving DecidableEq, Repr

/-- One entry of the `owed_by` breakdown returned by
`get_user_balance_summary`: one SQL `GROUP BY ges.user_id, u.name` group. -/
structure OwedEntry where
  user_id : Nat
  user_name : String
  total_owed_to_user : ℚ
  deriving DecidableEq, Repr

/-- The result dict of `get_user_balance_summary`. -/
structure BalanceSummary where
  total_paid : ℚ
  total_share : ℚ
  total_owes : ℚ
  total_owed_to_user : ℚ
  net_balance : ℚ
  owes_to : List OwesEntry
  owed_by : List OwedEntry
  deriving DecidableEq, Repr

/-- SQL `GROUP BY` with `SUM`: one `(key, sum of f over the rows with
that key)` pair per key occurring in the row list. -/
def groupSums {α β : Type} [DecidableEq β] (key : α → β) (f : α → ℚ)
    (l : List α) : List (β × ℚ) :=
  ((l.map key).dedup).map (fun k =>
    (k, ((l.filter (fun a => decide (key a = k))).map f).sum))

/-- The row set of the first query of `get_user_balance_summary`
(`FROM group_expense_shares ges JOIN group_expenses ge ON
ges.group_expense_id = ge.id JOIN users u ON ge.payer_id = u.id WHERE
ges.user_id = ? AND ges.is_settled = 0 AND ge.payer_id != ?`), as the
filtered product of the three tables. -/
def owesToRows (st : Store) (user_id : Nat) :
    List (ExpenseShare × GroupExpense × User) :=
  ((st.shares.flatMap fun s => st.expenses.flatMap fun e => st.users.map fun u =>
      (s, e, u)).filter
    (fun r =>
      r.1.group_expense_id == r.2.1.id && r.2.1.payer_id == r.2.2.id &&
      r.1.user_id == user_id && !r.1.is_settled && r.2.1.payer_id != user_id))

/-- The `owes_to` list: the first query grouped by
`(ge.payer_id, u.name)` with `SUM(ges.share_amount)`. -/
def owes_to (st : Store) (user_id : Nat) : List OwesEntry :=
  (groupSums (fun r => (r.2.1.payer_id, r.2.2.name)) (fun r => r.1.share_amount)
      (owesToRows st user_id)).map
    (fun g => { payer_id := g.1.1, payer_name := g.1.2, total_owed := g.2 })

/-- The row set of the second query of `get_user_balance_summary`
(`... JOIN users u ON ges.user_id = u.id WHERE ge.payer_id = ? AND
ges.is_settled = 0 AND ges.user_id != ?`). -/
def owedByRows (st : Store) (user_id : Nat) :
    List (ExpenseShare × GroupExpense × User) :=
  ((st.shares.flatMap fun s => st.expenses.flatMap fun e => st.users.map fun u =>
      (s, e, u)).filter
    (fun r =>
      r.1.group_expense_id == r.2.1.id && r.1.user_id == r.2.2.id &&
      r.2.1.payer_id == user_id && !r.1.is_settled && r.1.user_id != user_id))

/-- The `owed_by` list: the second query grouped by
`(ges.user_id, u.name)` with `SUM(ges.share_amount)`. -/
def owed_by (st : Store) (user_id : Nat) : List OwedEntry :=
  (groupSums (fun r => (r.1.user_id, r.2.2.name)) (fun r => r.1.share_amount)
      (owedByRows st user_id)).map
    (fun g => { user_id := g.1.1, user_name := g.1.2, total_owed_to_user := g.2 })

/-- `get_user_balance_summary(user_id)` on the full schema:
`total_owes` and `total_owed_to_user` are the Python sums over the two
grouped breakdowns, `total_paid` is `SUM(amount)` over the expenses the
user paid, `total_share` is `SUM(ges.share_amount)` over the
share-expense join restricted to the user, and
`net_balance = total_owed_to_user - total_owes`. -/
def get_user_balance_summary (st : Store) (user_id : Nat) : BalanceSummary :=
  let owesTo := owes_to st user_id
  let owedBy := owed_by st user_id
  let total_owes := (owesTo.map (·.total_owed)).sum
  let total_owed_to_user := (owedBy.map (·.total_owed_to_user)).sum
  let total_paid :=
    ((st.expenses.filter (fun e => e.payer_id == user_id)).map (·.amount)).sum
  let total_share :=
    (((st.shares.flatMap fun s => st.expenses.map fun e => (s, e)).filter
        (fun r => r.1.group_expense_id == r.2.id && r.1.user_id == user_id)).map
      (fun r => r.1.share_amount)).sum
  { total_paid := total_paid, total_share := total_share,
    total_owes := total_owes, total_owed_to_user := total_owed_to_user,
    net_balance := total_owed_to_user - total_owes,
    owes_to := owesTo, owed_by := owedBy }

/-- `delete_group_expense(expense_id, payer_id)`: fetches the expense by
id (returns `False` when it does not exist), returns `False` unless the
requester is the payer, otherwise deletes the expense row; the shares
follow by the `ON DELETE CASCADE` foreign key. -/
def delete_group_expense (st : Store) (expense_id payer_id : Nat) :
    Bool × Store :=
  match st.expenses.find? (fun e => e.id == expense_id) with
  | none => (false, st)
  | some e =>
    if e.payer_id ≠ payer_id then (false, st)
    else
      (true,
       { st with
          expenses := st.expenses.filter (fun e2 => e2.id != expense_id),
          shares := st.shares.filter (fun s => s.group_expense_id != expense_id) })

/-- One mutating call of the group-expense API, as exposed in spec §6.
`addUser` models the effect of `create_user` on the tables this
development tracks (a fresh `users` row). -/
inductive Step : Store → Store → Prop
  | add (st : Store) (title : String) (amount : ℚ) (payer_id : Nat)
      (category date description : String) (shares : List ShareInput)
      (currency : String) :
      Step st (add_group_expense st title amount payer_id category date
        description shares currency).2
  | settle (st : Store) (share_id user_id : Nat)
      (method reference : Option String) (now : String) :
      Step st (settle_expense_share st share_id user_id method reference now).2
  | settleMany (st : Store) (user_id : Nat) (expense_ids : List Nat)
      (method reference : Option String) (now : String) :
      Step st (settle_multiple_expenses st user_id expense_ids method
        reference now).2
  | delete (st : Store) (expense_id payer_id : Nat) :
      Step st (delete_group_expense st expense_id payer_id).2
  | addUser (st : Store) (u : User) :
      Step st { st with users := st.users ++ [u] }

/-- Store states reachable from a freshly initialised database (any set
of pre-existing users, no group expenses or shares) through the
group-expense API. -/
inductive Reachable : Store → Prop
  | init (users : List User) :
      Reachable { users := users, expenses := [], shares := [],
                  next_expense_id := 1, next_share_id := 1 }
  | step {st st2 : Store} : Reachable st → Step st st2 → Reachable st2

/-- Every share of the expense with id `eid` is settled. -/
def AllSharesSettled (st : Store) (eid : Nat) : Prop :=
  ∀ s ∈ st.shares, s.group_expense_id = eid → s.is_settled = true

/-- The settled-flag consistency of one expense row: a settled expense
has only settled shares, and an expense with at least one share, all of
them settled, is itself settled. -/
def SettledOk (st : Store) (e : GroupExpense) : Prop :=
  (e.is_settled = true → AllSharesSettled st e.id) ∧
  ((∃ s ∈ st.shares, s.group_expense_id = e.id) →
    AllSharesSettled st e.id → e.is_settled = true)

/-- Well-formedness of a store: row ids are below the autoincrement
counters and pairwise distinct, shares point at already-allocated
expense ids, and every expense row is settled-flag consistent. -/
def Wf (st : Store) : Prop :=
  (∀ s ∈ st.shares, s.id < st.next_share_id) ∧
  (st.shares.map (·.id)).Nodup ∧
  (∀ e ∈ st.expenses, e.id < st.next_expense_id) ∧
  (∀ s ∈ st.shares, s.group_expense_id < st.next_expense_id) ∧
  (∀ e ∈ st.expenses, SettledOk st e)

/-! ### General list lemmas used by the proofs below -/

theorem sum_map_zero {α : Type} (l : List α) :
    (l.map (fun _ => (0 : ℚ))).sum = 0 := by
  induction l with
  | nil => simp
  | cons a t ih => simp [ih]

theorem sum_map_add_distrib {α : Type} (l : List α) (f g : α → ℚ) :
    (l.map (fun a => f a + g a)).sum = (l.map f).sum + (l.map g).sum := by
  induction l with
  | nil => simp
  | cons a t ih => simp [ih]; ring

theorem sum_map_ite_not_mem {α β : Type} [DecidableEq β] (l : List α)
    (key : α → β) (b : β) (c : α → ℚ) :
    b ∉ l.map key → (l.map (fun a => if key a = b then c a else 0)).sum = 0 := by
  induction l with
  | nil => intro _; simp
  | cons a t ih =>
    intro hb
    simp only [List.map_cons, List.mem_cons, not_or] at hb
    rw [List.map_cons, List.sum_cons, if_neg (fun h => hb.1 h.symm), ih hb.2,
      add_zero]

theorem sum_map_ite_find {α β : Type} [DecidableEq β] (l : List α)
    (key : α → β) (b : β) (c : α → ℚ) :
    (l.map key).Nodup →
    (l.map (fun a => if key a = b then c a else 0)).sum =
      ((l.find? (fun a => decide (key a = b))).map c).getD 0 := by
  induction l with
  | nil => intro _; simp
  | cons a t ih =>
    intro hnd
    simp only [List.map_cons, List.nodup_cons] at hnd
    by_cases h : key a = b
    · rw [List.map_cons, List.sum_cons, if_pos h,
        List.find?_cons_of_pos _ (by simpa using h),
        sum_map_ite_not_mem t key b c (h ▸ hnd.1), add_zero]
      simp
    · rw [List.map_cons, List.sum_cons, if_neg h,
        List.find?_cons_of_neg _ (by simpa using h), zero_add]
      exact ih hnd.2

theorem sum_map_filter_ite {α : Type} (l : List α) (p : α → Bool) (f : α → ℚ) :
    ((l.filter p).map f).sum = (l.map (fun a => if p a then f a else 0)).sum := by
  induction l with
  | nil => simp
  | cons a t ih =>
    by_cases h : p a
    · rw [List.filter_cons_of_pos h, List.map_cons, List.sum_cons, List.map_cons,
        List.sum_cons, if_pos h, ih]
    · rw [List.filter_cons_of_neg (by simpa using h), List.map_cons,
        List.sum_cons, if_neg h, zero_add, ih]

theorem sum_map_flatMap {α β : Type} (l : List α) (g : α → List β) (f : β → ℚ) :
    (((l.flatMap g)).map f).sum = (l.map (fun a => ((g a).map f).sum)).sum := by
  induction l with
  | nil => simp
  | cons a t ih => simp [List.flatMap_cons, ih]

/-- Termwise sum over a duplicate-free key list: the bucket holding `b`
absorbs `c`, every other bucket is untouched. -/
theorem sum_map_bucket_add {β : Type} [DecidableEq β] (b : β) (c : ℚ)
    (g : β → ℚ) : ∀ (K : List β), K.Nodup → b ∈ K →
    (K.map (fun k => (if b = k then c else 0) + g k)).sum =
      c + (K.map g).sum := by
  intro K
  induction K with
  | nil => intro _ hb; simp at hb
  | cons k t ih =>
    intro hK hb
    simp only [List.nodup_cons] at hK
    rw [List.map_cons, List.sum_cons, List.map_cons, List.sum_cons]
    rcases List.mem_cons.mp hb with hb | hb
    · subst hb
      rw [if_pos rfl]
      have ht : t.map (fun x => (if b = x then c else 0) + g x) = t.map g :=
        List.map_congr_left (fun x hx => by
          rw [if_neg (fun hbx => hK.1 (by rw [hbx]; exact hx)), zero_add])
      rw [ht]; ring
    · have hbk : ¬ b = k := fun h => hK.1 (h ▸ hb)
      rw [if_neg hbk, zero_add, ih hK.2 hb]; ring

/-- Splitting a sum over a duplicate-free covering key list into
per-bucket sums loses nothing. -/
theorem sum_buckets {α β : Type} [DecidableEq β] (key : α → β) (f : α → ℚ) :
    ∀ (l : List α) (K : List β), K.Nodup → (∀ a ∈ l, key a ∈ K) →
    (K.map (fun k =>
      ((l.filter (fun a => decide (key a = k))).map f).sum)).sum =
      (l.map f).sum := by
  intro l
  induction l with
  | nil =>
    intro K _ _
    have h : K.map (fun k =>
        ((List.filter (fun a => decide (key a = k)) ([] : List α)).map f).sum) =
        K.map (fun _ => (0 : ℚ)) :=
      List.map_congr_left (fun k _ => by simp)
    rw [h, sum_map_zero]
    simp
  | cons a t ih =>
    intro K hK hcov
    have hterm : ∀ k ∈ K,
        ((List.filter (fun x => decide (key x = k)) (a :: t)).map f).sum =
          (if key a = k then f a else 0) +
            ((t.filter (fun x => decide (key x = k))).map f).sum := by
      intro k _
      by_cases h : key a = k
      · rw [List.filter_cons_of_pos (by simpa using h), List.map_cons,
          List.sum_cons, if_pos h]
      · rw [List.filter_cons_of_neg (by simpa using h), if_neg h, zero_add]
    have h1 : K.map (fun k =>
        ((List.filter (fun x => decide (key x = k)) (a :: t)).map f).sum) =
        K.map (fun k => (if key a = k then f a else 0) +
          ((t.filter (fun x => decide (key x = k))).map f).sum) :=
      List.map_congr_left hterm
    rw [h1, sum_map_bucket_add (key a) (f a)
        (fun k => ((t.filter (fun x => decide (key x = k))).map f).sum) K hK
        (hcov a (List.mem_cons_self a t)),
      ih K hK (fun x hx => hcov x (List.mem_cons_of_mem a hx))]
    simp

/-- A `GROUP BY`/`SUM` pass and then summing the groups is the same as
summing the raw rows. -/
theorem sum_groupSums {α β : Type} [DecidableEq β] (key : α → β) (f : α → ℚ)
    (l : List α) :
    ((groupSums key f l).map (·.2)).sum = (l.map f).sum := by
  unfold groupSums
  rw [List.map_map]
  exact sum_buckets key f l ((l.map key).dedup) (List.nodup_dedup _)
    (fun a ha => (List.mem_dedup).mpr (List.mem_map_of_mem _ ha))

/-! ### Basic facts about the row operations -/

theorem nodup_key_eq {α β : Type} (key : α → β) :
    ∀ (l : List α), (l.map key).Nodup →
    ∀ a ∈ l, ∀ b ∈ l, key a = key b → a = b := by
  intro l
  induction l with
  | nil => intro _ a ha; simp at ha
  | cons x t ih =>
    intro hnd a ha b hb hkey
    simp only [List.map_cons, List.nodup_cons] at hnd
    rcases List.mem_cons.mp ha with ha | ha <;>
      rcases List.mem_cons.mp hb with hb | hb
    · rw [ha, hb]
    · exact absurd (List.mem_map_of_mem key hb)
        (by rw [← hkey, ha] at *; exact fun h => hnd.1 (by simpa using h))
    · exact absurd (List.mem_map_of_mem key ha)
        (by rw [hkey, hb] at *; exact fun h => hnd.1 (by simpa using h))
    · exact ih hnd.2 a ha b hb hkey

theorem settleShareRow_id (sid uid : Nat) (m r : Option String) (now : String)
    (s : ExpenseShare) : (settleShareRow sid uid m r now s).id = s.id := by
  unfold settleShareRow
  by_cases h : (s.id == sid && s.user_id == uid) = true <;> simp [h]

theorem settleShareRow_geid (sid uid : Nat) (m r : Option String)
    (now : String) (s : ExpenseShare) :
    (settleShareRow sid uid m r now s).group_expense_id = s.group_expense_id := by
  unfold settleShareRow
  by_cases h : (s.id == sid && s.user_id == uid) = true <;> simp [h]

theorem settleShareRow_user (sid uid : Nat) (m r : Option String)
    (now : String) (s : ExpenseShare) :
    (settleShareRow sid uid m r now s).user_id = s.user_id := by
  unfold settleShareRow
  by_cases h : (s.id == sid && s.user_id == uid) = true <;> simp [h]

theorem settleShareRow_amount (sid uid : Nat) (m r : Option String)
    (now : String) (s : ExpenseShare) :
    (settleShareRow sid uid m r now s).share_amount = s.share_amount := by
  unfold settleShareRow
  by_cases h : (s.id == sid && s.user_id == uid) = true <;> simp [h]

theorem settleShareRow_settled_mono (sid uid : Nat) (m r : Option String)
    (now : String) (s : ExpenseShare) (hs : s.is_settled = true) :
    (settleShareRow sid uid m r now s).is_settled = true := by
  unfold settleShareRow
  by_cases h : (s.id == sid && s.user_id == uid) = true <;> simp [h, hs]

theorem settleShareRow_of_ne (sid uid : Nat) (m r : Option String)
    (now : String) (s : ExpenseShare) (hs : ¬ s.id = sid) :
    settleShareRow sid uid m r now s = s := by
  unfold settleShareRow
  rw [if_neg]
  simp [hs]

theorem settleShareRow_of_match (sid uid : Nat) (m r : Option String)
    (now : String) (s : ExpenseShare) (h1 : s.id = sid) (h2 : s.user_id = uid) :
    settleShareRow sid uid m r now s =
      { s with is_settled := true, settled_at := some now,
               settlement_method := if truthy m then m else s.settlement_method,
               settlement_reference :=
                 if truthy r then r else s.settlement_reference } := by
  unfold settleShareRow
  rw [if_pos (by simp [h1, h2])]

theorem settleExpenseRow_id (geid : Nat) (now : String) (e : GroupExpense) :
    (settleExpenseRow geid now e).id = e.id := by
  unfold settleExpenseRow
  by_cases h : (e.id == geid) = true <;> simp [h]

theorem settleExpenseRow_payer (geid : Nat) (now : String) (e : GroupExpense) :
    (settleExpenseRow geid now e).payer_id = e.payer_id := by
  unfold settleExpenseRow
  by_cases h : (e.id == geid) = true <;> simp [h]

theorem settleExpenseRow_of_ne (geid : Nat) (now : String) (e : GroupExpense)
    (h : ¬ e.id = geid) : settleExpenseRow geid now e = e := by
  unfold settleExpenseRow
  rw [if_neg]
  simp [h]

/-- The post-update re-count is zero exactly when every share of the
expense is settled. -/
theorem unsettledCount_eq_zero_iff (shares : List ExpenseShare) (geid : Nat) :
    unsettledCount shares geid = 0 ↔
      ∀ s ∈ shares, s.group_expense_id = geid → s.is_settled = true := by
  unfold unsettledCount
  rw [List.length_eq_zero, List.filter_eq_nil_iff]
  constructor
  · intro h s hs hg
    by_contra hset
    exact h s hs (by simp [hg, Bool.eq_false_iff.mpr hset])
  · intro h s hs
    simp only [Bool.and_eq_true, beq_iff_eq, Bool.not_eq_true', not_and]
    intro hg
    rw [h s hs hg]
    simp

/-- Membership facts for the inserted share rows. -/
theorem mem_mkShares (geid : Nat) :
    ∀ (l : List ShareInput) (k : Nat) (s : ExpenseShare), s ∈ mkShares geid k l →
      k ≤ s.id ∧ s.id < k + l.length ∧ s.group_expense_id = geid ∧
        s.is_settled = false := by
  intro l
  induction l with
  | nil => intro k s hs; simp [mkShares] at hs
  | cons a t ih =>
    intro k s hs
    rcases List.mem_cons.mp hs with hs | hs
    · subst hs
      refine ⟨le_refl _, ?_, rfl, rfl⟩
      simp only [List.length_cons]
      omega
    · obtain ⟨h1, h2, h3, h4⟩ := ih (k + 1) s hs
      refine ⟨by omega, ?_, h3, h4⟩
      simp only [List.length_cons]
      omega

theorem mkShares_ids_nodup (geid : Nat) :
    ∀ (l : List ShareInput) (k : Nat), ((mkShares geid k l).map (·.id)).Nodup := by
  intro l
  induction l with
  | nil => intro k; simp [mkShares]
  | cons a t ih =>
    intro k
    simp only [mkShares, List.map_cons, List.nodup_cons]
    refine ⟨?_, ih (k + 1)⟩
    intro hmem
    obtain ⟨s, hs, hid⟩ := List.mem_map.mp hmem
    obtain ⟨h1, _, _, _⟩ := mem_mkShares geid t (k + 1) s hs
    omega

theorem mkShares_user_amount (geid : Nat) :
    ∀ (l : List ShareInput) (k : Nat),
      (mkShares geid k l).map (fun s => (s.user_id, s.share_amount)) =
        l.map (fun sh => (sh.user_id, sh.amount)) := by
  intro l
  induction l with
  | nil => intro k; simp [mkShares]
  | cons a t ih => intro k; simp [mkShares, ih (k + 1)]

/-! ### Preservation of well-formedness by every operation -/

theorem wf_init (users : List User) :
    Wf { users := users, expenses := [], shares := [],
         next_expense_id := 1, next_share_id := 1 } := by
  refine ⟨?_, ?_, ?_, ?_, ?_⟩ <;> simp [Wf, SettledOk, AllSharesSettled]

theorem wf_addUser (st : Store) (u : User) (h : Wf st) :
    Wf { st with users := st.users ++ [u] } := by
  obtain ⟨hA, hB, hC, hE, hD⟩ := h
  exact ⟨hA, hB, hC, hE, fun e he => hD e he⟩

theorem wf_delete (st : Store) (eid uid : Nat) (h : Wf st) :
    Wf (delete_group_expense st eid uid).2 := by
  unfold delete_group_expense
  cases hfind : st.expenses.find? (fun e => e.id == eid) with
  | none => simpa using h
  | some e =>
    by_cases hpay : e.payer_id ≠ uid
    · simp only [hfind, if_pos hpay]
      exact h
    · simp only [hfind, if_neg hpay]
      obtain ⟨hA, hB, hC, hE, hD⟩ := h
      refine ⟨?_, ?_, ?_, ?_, ?_⟩
      · intro s hs
        exact hA s (List.mem_of_mem_filter hs)
      · exact hB.sublist
          (List.Sublist.map (fun s => s.id) (List.filter_sublist st.shares))
      · intro e2 he2
        exact hC e2 (List.mem_of_mem_filter he2)
      · intro s hs
        exact hE s (List.mem_of_mem_filter hs)
      · intro e2 he2
        have he2mem := List.mem_of_mem_filter he2
        have he2ne : ¬ e2.id = eid := by
          have := (List.mem_filter.mp he2).2
          simpa using this
        constructor
        · intro hset s hs hgeid
          exact (hD e2 he2mem).1 hset s (List.mem_of_mem_filter hs) hgeid
        · rintro ⟨s, hs, hgeid⟩ hall
          refine (hD e2 he2mem).2 ⟨s, List.mem_of_mem_filter hs, hgeid⟩ ?_
          intro s0 hs0 hgeid0
          refine hall s0 ?_ hgeid0
          refine List.mem_filter.mpr ⟨hs0, ?_⟩
          simp only [bne_iff_ne, ne_eq]
          rw [hgeid0]
          exact he2ne

theorem wf_add (st : Store) (title : String) (amount : ℚ) (payer_id : Nat)
    (category date description : String) (shares : List ShareInput)
    (currency : String) (h : Wf st) :
    Wf (add_group_expense st title amount payer_id category date description
      shares currency).2 := by
  obtain ⟨hA, hB, hC, hE, hD⟩ := h
  simp only [add_group_expense]
  split
  · exact ⟨hA, hB, hC, hE, hD⟩
  split
  · exact ⟨hA, hB, hC, hE, hD⟩
  split
  · exact ⟨hA, hB, hC, hE, hD⟩
  split
  · exact ⟨hA, hB, hC, hE, hD⟩
  refine ⟨?_, ?_, ?_, ?_, ?_⟩ <;> dsimp only
  · intro s hs
    rcases List.mem_append.mp hs with hs | hs
    · have := hA s hs
      omega
    · have := (mem_mkShares st.next_expense_id shares st.next_share_id s hs).2.1
      omega
  · simp only [List.map_append]
    refine List.Nodup.append hB (mkShares_ids_nodup _ shares _) ?_
    intro a ha hb
    obtain ⟨s, hs, rfl⟩ := List.mem_map.mp ha
    obtain ⟨s2, hs2, hideq⟩ := List.mem_map.mp hb
    have h1 := hA s hs
    have h2 := (mem_mkShares st.next_expense_id shares st.next_share_id s2 hs2).1
    omega
  · intro e he
    rcases List.mem_append.mp he with he | he
    · have := hC e he
      omega
    · rcases List.mem_singleton.mp he with rfl
      simp [mkExpense]
  · intro s hs
    rcases List.mem_append.mp hs with hs | hs
    · have := hE s hs
      omega
    · have := (mem_mkShares st.next_expense_id shares st.next_share_id s hs).2.2.1
      omega
  · intro e he
    rcases List.mem_append.mp he with he | he
    · -- a pre-existing expense row: its share set is unchanged
      have hce := hC e he
      constructor
      · intro hset s hs hgeid
        rcases List.mem_append.mp hs with hs | hs
        · exact (hD e he).1 hset s hs hgeid
        · have := (mem_mkShares st.next_expense_id shares st.next_share_id s hs).2.2.1
          omega
      · rintro ⟨s, hs, hgeid⟩ hall
        rcases List.mem_append.mp hs with hs | hs
        · refine (hD e he).2 ⟨s, hs, hgeid⟩ ?_
          intro s0 hs0 hgeid0
          exact hall s0 (List.mem_append.mpr (Or.inl hs0)) hgeid0
        · have := (mem_mkShares st.next_expense_id shares st.next_share_id s hs).2.2.1
          omega
    · -- the freshly inserted expense row, unsettled with unsettled shares
      rcases List.mem_singleton.mp he with rfl
      constructor
      · intro hset
        simp [mkExpense] at hset
      · rintro ⟨s, hs, hgeid⟩ hall
        rcases List.mem_append.mp hs with hs | hs
        · have h1 := hE s hs
          simp only [mkExpense] at hgeid
          omega
        · have h2 := (mem_mkShares st.next_expense_id shares st.next_share_id s hs).2.2.2
          have h3 := hall s (List.mem_append.mpr (Or.inr hs)) hgeid
          rw [h2] at h3
          exact absurd h3 (by simp)

theorem settleExpenseRow_of_match (geid : Nat) (now : String) (e : GroupExpense)
    (h : e.id = geid) : settleExpenseRow geid now e =
      { e with is_settled := true, settled_at := some now } := by
  unfold settleExpenseRow
  rw [if_pos (by simp [h])]

theorem settleShareRow_map_ids (sid uid : Nat) (m r : Option String)
    (now : String) (l : List ExpenseShare) :
    (l.map (settleShareRow sid uid m r now)).map (·.id) = l.map (·.id) := by
  rw [List.map_map]
  exact List.map_congr_left (fun s _ => settleShareRow_id sid uid m r now s)

theorem wf_settle (st : Store) (sid uid : Nat) (m r : Option String)
    (now : String) (h : Wf st) :
    Wf (settle_expense_share st sid uid m r now).2 := by
  obtain ⟨hA, hB, hC, hE, hD⟩ := h
  unfold settle_expense_share
  cases hfind : st.shares.find? (fun s => s.id == sid && s.user_id == uid) with
  | none => exact ⟨hA, hB, hC, hE, hD⟩
  | some sh =>
    have hmem := List.mem_of_find?_eq_some hfind
    have hpred := List.find?_some hfind
    simp only [Bool.and_eq_true, beq_iff_eq] at hpred
    obtain ⟨hshid, hshuid⟩ := hpred
    dsimp only
    -- the share update leaves every row whose parent is a different
    -- expense untouched
    have hsub : ∀ s0 ∈ st.shares,
        s0.group_expense_id ≠ sh.group_expense_id →
        settleShareRow sid uid m r now s0 = s0 := by
      intro s0 hs0 hne
      apply settleShareRow_of_ne
      intro hid0
      have heq := nodup_key_eq (fun s => s.id) st.shares hB s0 hs0 sh hmem
        (by simp only []; rw [hid0, hshid])
      rw [heq] at hne
      exact hne rfl
    have htrans1 : ∀ (eid : Nat), AllSharesSettled st eid →
        ∀ s1 ∈ st.shares.map (settleShareRow sid uid m r now),
          s1.group_expense_id = eid → s1.is_settled = true := by
      intro eid hall s1 hs1 hgeid
      obtain ⟨s0, hs0, rfl⟩ := List.mem_map.mp hs1
      refine settleShareRow_settled_mono sid uid m r now s0 (hall s0 hs0 ?_)
      rw [← settleShareRow_geid sid uid m r now s0]
      exact hgeid
    have htrans2 : ∀ (eid : Nat), eid ≠ sh.group_expense_id →
        (∀ s1 ∈ st.shares.map (settleShareRow sid uid m r now),
          s1.group_expense_id = eid → s1.is_settled = true) →
        AllSharesSettled st eid := by
      intro eid hne hall s0 hs0 hgeid
      have hrow0 : settleShareRow sid uid m r now s0 = s0 :=
        hsub s0 hs0 (by rw [hgeid]; exact fun hh => hne hh)
      have hres := hall (settleShareRow sid uid m r now s0)
        (List.mem_map_of_mem _ hs0) (by rw [hrow0]; exact hgeid)
      rw [hrow0] at hres
      exact hres
    by_cases hcnt : unsettledCount
        (st.shares.map (settleShareRow sid uid m r now)) sh.group_expense_id = 0
    · rw [if_pos hcnt]
      refine ⟨?_, ?_, ?_, ?_, ?_⟩ <;> dsimp only
      · intro s1 hs1
        obtain ⟨s0, hs0, rfl⟩ := List.mem_map.mp hs1
        rw [settleShareRow_id]
        exact hA s0 hs0
      · rw [settleShareRow_map_ids]
        exact hB
      · intro e1 he1
        obtain ⟨e0, he0, rfl⟩ := List.mem_map.mp he1
        rw [settleExpenseRow_id]
        exact hC e0 he0
      · intro s1 hs1
        obtain ⟨s0, hs0, rfl⟩ := List.mem_map.mp hs1
        rw [settleShareRow_geid]
        exact hE s0 hs0
      · intro e1 he1
        obtain ⟨e0, he0, rfl⟩ := List.mem_map.mp he1
        by_cases hge : e0.id = sh.group_expense_id
        · rw [settleExpenseRow_of_match _ _ _ hge]
          constructor
          · intro _ s1 hs1 hgeid
            exact (unsettledCount_eq_zero_iff _ _).mp hcnt s1 hs1
              (by rw [← hge]; exact hgeid)
          · intro _ _
            rfl
        · rw [settleExpenseRow_of_ne _ _ _ hge]
          constructor
          · intro hset s1 hs1 hgeid
            exact htrans1 e0.id ((hD e0 he0).1 hset) s1 hs1 hgeid
          · rintro ⟨s1, hs1, hgeid⟩ hall1
            obtain ⟨s0, hs0, rfl⟩ := List.mem_map.mp hs1
            refine (hD e0 he0).2 ⟨s0, hs0, ?_⟩ (htrans2 e0.id hge hall1)
            rw [← settleShareRow_geid sid uid m r now s0]
            exact hgeid
    · rw [if_neg hcnt]
      refine ⟨?_, ?_, ?_, ?_, ?_⟩ <;> dsimp only
      · intro s1 hs1
        obtain ⟨s0, hs0, rfl⟩ := List.mem_map.mp hs1
        rw [settleShareRow_id]
        exact hA s0 hs0
      · rw [settleShareRow_map_ids]
        exact hB
      · exact hC
      · intro s1 hs1
        obtain ⟨s0, hs0, rfl⟩ := List.mem_map.mp hs1
        rw [settleShareRow_geid]
        exact hE s0 hs0
      · intro e0 he0
        by_cases hge : e0.id = sh.group_expense_id
        · constructor
          · intro hset s1 hs1 hgeid
            exact htrans1 e0.id ((hD e0 he0).1 hset) s1 hs1 hgeid
          · rintro ⟨s1, hs1, hgeid⟩ hall1
            exact absurd ((unsettledCount_eq_zero_iff _ _).mpr
              (by rw [← hge]; exact hall1)) hcnt
        · constructor
          · intro hset s1 hs1 hgeid
            exact htrans1 e0.id ((hD e0 he0).1 hset) s1 hs1 hgeid
          · rintro ⟨s1, hs1, hgeid⟩ hall1
            obtain ⟨s0, hs0, rfl⟩ := List.mem_map.mp hs1
            refine (hD e0 he0).2 ⟨s0, hs0, ?_⟩ (htrans2 e0.id hge hall1)
            rw [← settleShareRow_geid sid uid m r now s0]
            exact hgeid

theorem wf_settleManyStep (uid : Nat) (m r : Option String) (now : String)
    (acc : SettleResult × Store) (eid : Nat) (h : Wf acc.2) :
    Wf (settleManyStep uid m r now acc eid).2 := by
  unfold settleManyStep
  cases hfind : acc.2.shares.find? (fun sh =>
      sh.group_expense_id == eid && sh.user_id == uid && !sh.is_settled) with
  | none => exact h
  | some sh =>
    dsimp only
    by_cases hok : (settle_expense_share acc.2 sh.id uid m r now).1 = true
    · rw [if_pos hok]
      exact wf_settle acc.2 sh.id uid m r now h
    · rw [if_neg hok]
      exact wf_settle acc.2 sh.id uid m r now h

theorem wf_settleMany_fold (uid : Nat) (m r : Option String) (now : String) :
    ∀ (ids : List Nat) (acc : SettleResult × Store), Wf acc.2 →
      Wf (ids.foldl (settleManyStep uid m r now) acc).2 := by
  intro ids
  induction ids with
  | nil => intro acc h; exact h
  | cons i t ih =>
    intro acc h
    exact ih _ (wf_settleManyStep uid m r now acc i h)

theorem wf_settleMany (st : Store) (uid : Nat) (ids : List Nat)
    (m r : Option String) (now : String) (h : Wf st) :
    Wf (settle_multiple_expenses st uid ids m r now).2 :=
  wf_settleMany_fold uid m r now ids (⟨0, 0, 0⟩, st) h

theorem wf_step {st st2 : Store} (hs : Step st st2) (h : Wf st) : Wf st2 := by
  cases hs with
  | add title amount payer_id category date description shares currency =>
      exact wf_add st title amount payer_id category date description shares
        currency h
  | settle sid uid m r now => exact wf_settle st sid uid m r now h
  | settleMany uid ids m r now => exact wf_settleMany st uid ids m r now h
  | delete eid uid => exact wf_delete st eid uid h
  | addUser u => exact wf_addUser st u h

/-- Every store state reachable through the group-expense API is
well-formed. -/
theorem reachable_wf {st : Store} (h : Reachable st) : Wf st := by
  induction h with
  | init users => exact wf_init users
  | step _ hstep ih => exact wf_step hstep ih

/-! ### Claim C2: the cascade invariant -/

/-- C2 (amended): in every reachable store state, a settled expense has
only settled shares, and for every expense with at least one share the
`is_settled` flag holds if and only if every share of that expense is
settled.  (The unamended biconditional fails for an expense created with
an empty share list, see the counterexample.) -/
theorem c2_cascade_invariant_amended (st : Store) (h : Reachable st) :
    ∀ e ∈ st.expenses,
      (e.is_settled = true →
        ∀ s ∈ st.shares, s.group_expense_id = e.id → s.is_settled = true) ∧
      ((∃ s ∈ st.shares, s.group_expense_id = e.id) →
        (e.is_settled = true ↔
          ∀ s ∈ st.shares, s.group_expense_id = e.id → s.is_settled = true)) := by
  intro e he
  have hD := (reachable_wf h).2.2.2.2 e he
  exact ⟨hD.1, fun hex => ⟨hD.1, fun hall => hD.2 hex hall⟩⟩

/-- A fresh store with one user. -/
def c2InitStore : Store :=
  { users := [⟨1, "A"⟩], expenses := [], shares := [],
    next_expense_id := 1, next_share_id := 1 }

/-- The store after `add_group_expense("Empty", 0, 1, ..., shares=[])`:
the validation `abs(0 - 0) <= 0.01` passes, so an expense row with no
share rows is created, unsettled. -/
def c2BadStore : Store :=
  (add_group_expense c2InitStore "Empty" 0 1 "General" "2024-01-01" "" []
    "INR").2

/-- C2 (counterexample to the claim as stated): `c2BadStore` is
reachable (one `add_group_expense` call with an empty share list and
amount `0`), and it contains an expense all of whose shares are
(vacuously) settled while its `is_settled` flag is false — so
`expense.is_settled == all(share.is_settled for share in expense.shares)`
does not hold in every reachable state. -/
theorem c2_cascade_counterexample :
    Reachable c2BadStore ∧
    c2BadStore.expenses.any (fun e =>
      (c2BadStore.shares.filter (fun s => s.group_expense_id == e.id)).all
        (fun s => s.is_settled) && !e.is_settled) = true := by
  constructor
  · exact Reachable.step (Reachable.init [⟨1, "A"⟩])
      (Step.add c2InitStore "Empty" 0 1 "General" "2024-01-01" "" [] "INR")
  · norm_num [c2BadStore, c2InitStore, add_group_expense, mkExpense, mkShares]

/-- A fresh store with two users. -/
def c2DemoStore0 : Store :=
  { users := [⟨1, "A"⟩, ⟨2, "B"⟩], expenses := [], shares := [],
    next_expense_id := 1, next_share_id := 1 }

/-- After `add_group_expense("Lunch", 40, payer=1, shares=[(2, 40)])`. -/
def c2DemoStore1 : Store :=
  (add_group_expense c2DemoStore0 "Lunch" 40 1 "General" "2024-01-02" ""
    [⟨2, 40⟩] "INR").2

/-- After user 2 settles share 1: the cascade marks expense 1 settled. -/
def c2DemoStore2 : Store :=
  (settle_expense_share c2DemoStore1 1 2 none none "2024-01-03").2

/-- The expense row of `c2DemoStore2`. -/
def c2DemoExpense : GroupExpense :=
  { id := 1, title := "Lunch", amount := 40, payer_id := 1,
    category := "General", date := "2024-01-02", description := "",
    currency := "INR", is_settled := true, settled_at := some "2024-01-03" }

/-- The share row of `c2DemoStore2`. -/
def c2DemoShare : ExpenseShare :=
  { id := 1, group_expense_id := 1, user_id := 2, share_amount := 40,
    is_settled := true, settled_at := some "2024-01-03",
    settlement_method := none, settlement_reference := none }

theorem c2_cascade_witness :
    c2DemoShare.is_settled = true ∧ c2DemoShare ∈ c2DemoStore2.shares := by
  have hreach : Reachable c2DemoStore2 :=
    Reachable.step
      (Reachable.step (Reachable.init [⟨1, "A"⟩, ⟨2, "B"⟩])
        (Step.add c2DemoStore0 "Lunch" 40 1 "General" "2024-01-02" ""
          [⟨2, 40⟩] "INR"))
      (Step.settle c2DemoStore1 1 2 none none "2024-01-03")
  have hsmem : c2DemoShare ∈ c2DemoStore2.shares := by
    norm_num [c2DemoStore2, c2DemoStore1, c2DemoStore0, c2DemoShare,
      add_group_expense, mkShares, mkExpense, settle_expense_share,
      settleShareRow, settleExpenseRow, unsettledCount, truthy]
  have hemem : c2DemoExpense ∈ c2DemoStore2.expenses := by
    norm_num [c2DemoStore2, c2DemoStore1, c2DemoStore0, c2DemoExpense,
      add_group_expense, mkShares, mkExpense, settle_expense_share,
      settleShareRow, settleExpenseRow, unsettledCount, truthy]
  exact ⟨(c2_cascade_invariant_amended c2DemoStore2 hreach c2DemoExpense
    hemem).1 rfl c2DemoShare hsmem rfl, hsmem⟩

/-! ### Claims C1 and C3: the reconciliation gate and atomicity of
`add_group_expense` -/

/-- A store with three users and no expenses, used for the concrete
reconciliation examples. -/
def c1Store : Store :=
  { users := [⟨1, "A"⟩, ⟨2, "B"⟩, ⟨3, "C"⟩], expenses := [], shares := [],
    next_expense_id := 1, next_share_id := 1 }

/-- C1: `validate_expense_shares(total, shares, tol)` is true iff
`abs(sum(shares) - total) <= tol`; expense creation succeeds only if the
shares reconcile within `0.01` and fails with the validation error (store
unchanged) otherwise; `[60, 39]` against total `100` fails while
`[60, 40]` succeeds. -/
theorem c1_reconciliation_gate :
    (∀ (amount tolerance : ℚ) (shares : List ShareInput),
      validate_expense_shares amount shares tolerance = true ↔
        |(shares.map (·.amount)).sum - amount| ≤ tolerance) ∧
    (∀ (st : Store) (title : String) (amount : ℚ) (payer_id : Nat)
        (category date description currency : String)
        (shares : List ShareInput),
      (∃ eid, (add_group_expense st title amount payer_id category date
          description shares currency).1 = .ok eid) →
        |(shares.map (·.amount)).sum - amount| ≤ 1 / 100) ∧
    (∀ (st : Store) (title : String) (amount : ℚ) (payer_id : Nat)
        (category date description currency : String)
        (shares : List ShareInput),
      |(shares.map (·.amount)).sum - amount| > 1 / 100 →
        add_group_expense st title amount payer_id category date description
          shares currency =
          (.error "Shares total does not match expense amount", st)) ∧
    (add_group_expense c1Store "Dinner" 100 1 "General" "2024-01-01" ""
        [⟨2, 60⟩, ⟨3, 39⟩] "INR").1 =
      .error "Shares total does not match expense amount" ∧
    (add_group_expense c1Store "Dinner" 100 1 "General" "2024-01-01" ""
        [⟨2, 60⟩, ⟨3, 40⟩] "INR").1 = .ok 1 ∧
    validate_expense_shares 100 [⟨2, 60⟩, ⟨3, 39⟩] = false ∧
    validate_expense_shares 100 [⟨2, 60⟩, ⟨3, 40⟩] = true := by
  refine ⟨?_, ?_, ?_, ?_, ?_, ?_, ?_⟩
  · intro amount tolerance shares
    simp [validate_expense_shares]
  · intro st title amount payer_id category date description currency shares h
    by_contra hgt
    push_neg at hgt
    obtain ⟨eid, heid⟩ := h
    rw [show add_group_expense st title amount payer_id category date
        description shares currency =
        (.error "Shares total does not match expense amount", st) from by
      simp only [add_group_expense]
      rw [if_pos hgt]] at heid
    exact absurd heid (by simp)
  · intro st title amount payer_id category date description currency shares h
    simp only [add_group_expense]
    rw [if_pos h]
  · norm_num [add_group_expense, c1Store]
  · norm_num [add_group_expense, c1Store]
  · norm_num [validate_expense_shares]
  · norm_num [validate_expense_shares]

theorem c1_reconciliation_witness :
    add_group_expense c1Store "Picnic" 50 1 "General" "2024-01-01" ""
      [⟨2, 10⟩] "INR" =
      (.error "Shares total does not match expense amount", c1Store) :=
  c1_reconciliation_gate.2.2.1 c1Store "Picnic" 50 1 "General" "2024-01-01"
    "" "INR" [⟨2, 10⟩] (by norm_num)

/-- C3: `add_group_expense` is atomic — on any error the returned store
is exactly the input store (the transaction is rolled back before any
row becomes visible), and on success the returned store is exactly the
input store extended with the one expense row and its share rows, with
the two id counters advanced. -/
theorem c3_atomicity (st : Store) (title : String) (amount : ℚ)
    (payer_id : Nat) (category date description currency : String)
    (shares : List ShareInput) :
    (∀ msg, (add_group_expense st title amount payer_id category date
        description shares currency).1 = .error msg →
      (add_group_expense st title amount payer_id category date description
        shares currency).2 = st) ∧
    (∀ eid, (add_group_expense st title amount payer_id category date
        description shares currency).1 = .ok eid →
      eid = st.next_expense_id ∧
      (add_group_expense st title amount payer_id category date description
        shares currency).2 =
        { st with
           expenses := st.expenses ++
             [mkExpense st title amount payer_id category date description
               currency],
           shares := st.shares ++
             mkShares st.next_expense_id st.next_share_id shares,
           next_expense_id := st.next_expense_id + 1,
           next_share_id := st.next_share_id + shares.length }) := by
  simp only [add_group_expense]
  split
  · exact ⟨fun msg _ => rfl, fun eid h => by simp at h⟩
  split
  · exact ⟨fun msg _ => rfl, fun eid h => by simp at h⟩
  split
  · exact ⟨fun msg _ => rfl, fun eid h => by simp at h⟩
  split
  · exact ⟨fun msg _ => rfl, fun eid h => by simp at h⟩
  · refine ⟨fun msg h => by simp at h, fun eid h => ⟨?_, rfl⟩⟩
    simp only [Prod.fst] at h
    exact (Except.ok.inj h).symm

theorem c3_atomicity_witness :
    (add_group_expense c1Store "Dinner" 100 1 "General" "2024-01-01" ""
        [⟨2, 60⟩, ⟨3, 40⟩] "INR").2 =
      { c1Store with
         expenses := c1Store.expenses ++
           [mkExpense c1Store "Dinner" 100 1 "General" "2024-01-01" "" "INR"],
         shares := c1Store.shares ++ mkShares 1 1 [⟨2, 60⟩, ⟨3, 40⟩],
         next_expense_id := 2, next_share_id := 3 } :=
  ((c3_atomicity c1Store "Dinner" 100 1 "General" "2024-01-01" "" "INR"
    [⟨2, 60⟩, ⟨3, 40⟩]).2 1 (by norm_num [add_group_expense, c1Store])).2

/-! ### Claims C7 and C8: authorization checks -/

/-- C7: when no share row has both the given id and the given owning
user (the share does not exist, or it belongs to someone else),
`settle_expense_share` returns `False` and leaves the store unchanged —
only the owner of a share can settle it. -/
theorem c7_settle_authorization (st : Store) (sid uid : Nat)
    (m r : Option String) (now : String)
    (h : ∀ s ∈ st.shares, ¬ (s.id = sid ∧ s.user_id = uid)) :
    settle_expense_share st sid uid m r now = (false, st) := by
  unfold settle_expense_share
  have hfind : st.shares.find? (fun s => s.id == sid && s.user_id == uid) =
      none := by
    rw [List.find?_eq_none]
    intro s hs hp
    simp only [Bool.and_eq_true, beq_iff_eq] at hp
    exact h s hs hp
  rw [hfind]

/-- A one-share store owned by user 2 on an expense paid by user 1. -/
def c7Store : Store :=
  { users := [⟨1, "A"⟩, ⟨2, "B"⟩],
    expenses := [⟨1, "Cab", 40, 1, "General", "2024-01-01", "", "INR",
      false, none⟩],
    shares := [⟨1, 1, 2, 40, false, none, none, none⟩],
    next_expense_id := 2, next_share_id := 2 }

theorem c7_settle_authorization_witness :
    settle_expense_share c7Store 1 1 none none "2024-01-05" =
      (false, c7Store) :=
  c7_settle_authorization c7Store 1 1 none none "2024-01-05"
    (by intro s hs; simp only [c7Store] at hs; simp at hs; rw [hs]; simp)

/-- C8: `delete_group_expense` returns `False` with the store unchanged
when the expense id does not exist or the requester is not the payer; it
returns `True` exactly for the payer, deleting the expense row and
cascading to its share rows; and a repeated delete of the same id after
a successful delete is a `False` no-op. -/
theorem c8_delete_authorization :
    (∀ (st : Store) (eid uid : Nat),
      (∀ e ∈ st.expenses, e.id ≠ eid) →
        delete_group_expense st eid uid = (false, st)) ∧
    (∀ (st : Store) (eid uid : Nat) (e : GroupExpense),
      st.expenses.find? (fun e2 => e2.id == eid) = some e →
      e.payer_id ≠ uid →
        delete_group_expense st eid uid = (false, st)) ∧
    (∀ (st : Store) (eid uid : Nat) (e : GroupExpense),
      st.expenses.find? (fun e2 => e2.id == eid) = some e →
      e.payer_id = uid →
        delete_group_expense st eid uid =
          (true, { st with
            expenses := st.expenses.filter (fun e2 => e2.id != eid),
            shares := st.shares.filter
              (fun s => s.group_expense_id != eid) })) ∧
    (∀ (st : Store) (eid uid : Nat),
      (delete_group_expense st eid uid).1 = true →
        ∃ e ∈ st.expenses, e.id = eid ∧ e.payer_id = uid) ∧
    (∀ (st : Store) (eid uid uid2 : Nat),
      (delete_group_expense st eid uid).1 = true →
        delete_group_expense (delete_group_expense st eid uid).2 eid uid2 =
          (false, (delete_group_expense st eid uid).2)) := by
  have hnone : ∀ (st : Store) (eid uid : Nat),
      (∀ e ∈ st.expenses, e.id ≠ eid) →
      delete_group_expense st eid uid = (false, st) := by
    intro st eid uid h
    unfold delete_group_expense
    have hfind : st.expenses.find? (fun e2 => e2.id == eid) = none := by
      rw [List.find?_eq_none]
      intro e he hp
      exact h e he (by simpa using hp)
    rw [hfind]
  have hshape : ∀ (st : Store) (eid uid : Nat),
      (delete_group_expense st eid uid).1 = true →
      (∃ e ∈ st.expenses, e.id = eid ∧ e.payer_id = uid) ∧
      (delete_group_expense st eid uid).2 =
        { st with
          expenses := st.expenses.filter (fun e2 => e2.id != eid),
          shares := st.shares.filter (fun s => s.group_expense_id != eid) } := by
    intro st eid uid h
    unfold delete_group_expense at h ⊢
    cases hfind : st.expenses.find? (fun e2 => e2.id == eid) with
    | none =>
      rw [hfind] at h
      simp at h
    | some e =>
      rw [hfind] at h
      dsimp only at h ⊢
      by_cases hp : e.payer_id = uid
      · refine ⟨⟨e, List.mem_of_find?_eq_some hfind,
          by simpa using List.find?_some hfind, hp⟩, ?_⟩
        simp [hp]
      · simp [hp] at h
  refine ⟨hnone, ?_, ?_, ?_, ?_⟩
  · intro st eid uid e hfind hp
    unfold delete_group_expense
    rw [hfind]
    dsimp only
    simp [hp]
  · intro st eid uid e hfind hp
    unfold delete_group_expense
    rw [hfind]
    dsimp only
    simp [hp]
  · intro st eid uid h
    exact (hshape st eid uid h).1
  · intro st eid uid uid2 h
    rw [(hshape st eid uid h).2]
    refine hnone _ eid uid2 ?_
    intro e he
    have := (List.mem_filter.mp he).2
    simpa using this

/-- The store `c7Store` after its expense is deleted by the payer. -/
theorem c8_delete_authorization_witness :
    delete_group_expense c7Store 1 2 = (false, c7Store) :=
  c8_delete_authorization.2.1 c7Store 1 2
    ⟨1, "Cab", 40, 1, "General", "2024-01-01", "", "INR", false, none⟩
    (by simp [c7Store]) (by simp)

/-! ### Claim C9: settlement is idempotent-overwriting and absorbing -/

/-- Under duplicate-free ids, `find?` with a predicate that pins down
the id of `sh` returns `sh` itself. -/
theorem find?_eq_of_nodup_mem (p : ExpenseShare → Bool) (sh : ExpenseShare) :
    ∀ (l : List ExpenseShare), (l.map (·.id)).Nodup → sh ∈ l →
    p sh = true → (∀ s, p s = true → s.id = sh.id) →
    l.find? p = some sh := by
  intro l
  induction l with
  | nil => intro _ hmem; simp at hmem
  | cons a t ih =>
    intro hnd hmem hp hkey
    simp only [List.map_cons, List.nodup_cons] at hnd
    by_cases hpa : p a = true
    · have hid := hkey a hpa
      have haeq : a = sh := by
        rcases List.mem_cons.mp hmem with hmem | hmem
        · rw [hmem]
        · exact absurd (by rw [hid]; exact List.mem_map_of_mem _ hmem) hnd.1
      rw [List.find?_cons_of_pos _ hpa, haeq]
    · have hsh : sh ∈ t := by
        rcases List.mem_cons.mp hmem with hmem | hmem
        · rw [hmem] at hp; exact absurd hp hpa
        · exact hmem
      rw [List.find?_cons_of_neg _ hpa]
      exact ih hnd.2 hsh hp hkey

/-- The share update of `settle_expense_share` never changes the id
column. -/
theorem settle_shares_ids (st : Store) (sid uid : Nat) (m r : Option String)
    (now : String) :
    ((settle_expense_share st sid uid m r now).2.shares).map (·.id) =
      st.shares.map (·.id) := by
  unfold settle_expense_share
  cases hfind : st.shares.find? (fun s => s.id == sid && s.user_id == uid) with
  | none => rfl
  | some sh =>
    exact settleShareRow_map_ids sid uid m r now st.shares

/-- A settled share can never become unsettled through
`settle_expense_share`. -/
theorem settle_absorb (st : Store) (sid uid : Nat) (m r : Option String)
    (now : String) (hB : (st.shares.map (·.id)).Nodup) :
    ∀ s ∈ st.shares, s.is_settled = true →
    ∀ s2 ∈ (settle_expense_share st sid uid m r now).2.shares,
      s2.id = s.id → s2.is_settled = true := by
  intro s hs hset s2 hs2 hid
  revert hs2
  unfold settle_expense_share
  cases hfind : st.shares.find? (fun s => s.id == sid && s.user_id == uid) with
  | none =>
    intro hs2
    rw [nodup_key_eq (fun x => x.id) st.shares hB s2 hs2 s hs hid]
    exact hset
  | some sh =>
    intro hs2
    obtain ⟨s0, hs0, rfl⟩ := List.mem_map.mp hs2
    rw [settleShareRow_id] at hid
    rw [nodup_key_eq (fun x => x.id) st.shares hB s0 hs0 s hs hid]
    exact settleShareRow_settled_mono sid uid m r now s hset

theorem settleManyStep_ids (uid : Nat) (m r : Option String) (now : String)
    (acc : SettleResult × Store) (eid : Nat) :
    ((settleManyStep uid m r now acc eid).2.shares).map (·.id) =
      acc.2.shares.map (·.id) := by
  unfold settleManyStep
  cases hfind : acc.2.shares.find? (fun sh =>
      sh.group_expense_id == eid && sh.user_id == uid && !sh.is_settled) with
  | none => rfl
  | some sh =>
    dsimp only
    by_cases hok : (settle_expense_share acc.2 sh.id uid m r now).1 = true
    · rw [if_pos hok]
      exact settle_shares_ids acc.2 sh.id uid m r now
    · rw [if_neg hok]
      exact settle_shares_ids acc.2 sh.id uid m r now

theorem settleManyStep_absorb (uid : Nat) (m r : Option String) (now : String)
    (acc : SettleResult × Store) (eid : Nat) (h : Wf acc.2) :
    ∀ s ∈ acc.2.shares, s.is_settled = true →
    ∀ s2 ∈ (settleManyStep uid m r now acc eid).2.shares,
      s2.id = s.id → s2.is_settled = true := by
  intro s hs hset s2 hs2 hid
  revert hs2
  unfold settleManyStep
  cases hfind : acc.2.shares.find? (fun sh =>
      sh.group_expense_id == eid && sh.user_id == uid && !sh.is_settled) with
  | none =>
    intro hs2
    rw [nodup_key_eq (fun x => x.id) acc.2.shares h.2.1 s2 hs2 s hs hid]
    exact hset
  | some sh =>
    dsimp only
    by_cases hok : (settle_expense_share acc.2 sh.id uid m r now).1 = true
    · rw [if_pos hok]
      intro hs2
      exact settle_absorb acc.2 sh.id uid m r now h.2.1 s hs hset s2 hs2 hid
    · rw [if_neg hok]
      intro hs2
      exact settle_absorb acc.2 sh.id uid m r now h.2.1 s hs hset s2 hs2 hid

theorem settleMany_fold_absorb (uid : Nat) (m r : Option String)
    (now : String) :
    ∀ (ids : List Nat) (acc : SettleResult × Store), Wf acc.2 →
    ∀ s ∈ acc.2.shares, s.is_settled = true →
    ∀ s2 ∈ (ids.foldl (settleManyStep uid m r now) acc).2.shares,
      s2.id = s.id → s2.is_settled = true := by
  intro ids
  induction ids with
  | nil =>
    intro acc h s hs hset s2 hs2 hid
    rw [nodup_key_eq (fun x => x.id) acc.2.shares h.2.1 s2 hs2 s hs hid]
    exact hset
  | cons i t ih =>
    intro acc h s hs hset s2 hs2 hid
    have hmid : s.id ∈ ((settleManyStep uid m r now acc i).2.shares).map (·.id) := by
      rw [settleManyStep_ids]
      exact List.mem_map_of_mem _ hs
    obtain ⟨s1, hs1, hid1⟩ := List.mem_map.mp hmid
    have hset1 : s1.is_settled = true :=
      settleManyStep_absorb uid m r now acc i h s hs hset s1 hs1 hid1
    exact ih (settleManyStep uid m r now acc i)
      (wf_settleManyStep uid m r now acc i h) s1 hs1 hset1 s2 hs2
      (by rw [hid, ← hid1])

/-- No API call ever clears the settled flag of a share: any share row
of the successor state carrying the id of a settled share row of the
predecessor state is itself settled. -/
theorem step_absorb {st st2 : Store} (h : Wf st) (hstep : Step st st2) :
    ∀ s ∈ st.shares, s.is_settled = true →
    ∀ s2 ∈ st2.shares, s2.id = s.id → s2.is_settled = true := by
  have hsame : ∀ (stx : Store), (stx.shares.map (·.id)).Nodup →
      ∀ s ∈ stx.shares, s.is_settled = true →
      ∀ s2 ∈ stx.shares, s2.id = s.id → s2.is_settled = true := by
    intro stx hB s hs hset s2 hs2 hid
    rw [nodup_key_eq (fun x => x.id) stx.shares hB s2 hs2 s hs hid]
    exact hset
  cases hstep with
  | add title amount payer_id category date description shares currency =>
    intro s hs hset s2 hs2 hid
    revert hs2
    simp only [add_group_expense]
    split
    · exact fun hs2 => hsame st h.2.1 s hs hset s2 hs2 hid
    split
    · exact fun hs2 => hsame st h.2.1 s hs hset s2 hs2 hid
    split
    · exact fun hs2 => hsame st h.2.1 s hs hset s2 hs2 hid
    split
    · exact fun hs2 => hsame st h.2.1 s hs hset s2 hs2 hid
    · dsimp only
      intro hs2
      rcases List.mem_append.mp hs2 with hs2 | hs2
      · exact hsame st h.2.1 s hs hset s2 hs2 hid
      · have hlow := h.1 s hs
        have hhigh := (mem_mkShares st.next_expense_id shares
          st.next_share_id s2 hs2).1
        omega
  | settle sid uid m r now =>
    exact settle_absorb st sid uid m r now h.2.1
  | settleMany uid ids m r now =>
    exact settleMany_fold_absorb uid m r now ids (⟨0, 0, 0⟩, st) h
  | delete eid uid =>
    intro s hs hset s2 hs2 hid
    revert hs2
    unfold delete_group_expense
    cases hfind : st.expenses.find? (fun e => e.id == eid) with
    | none => exact fun hs2 => hsame st h.2.1 s hs hset s2 hs2 hid
    | some e =>
      dsimp only
      by_cases hp : e.payer_id ≠ uid
      · rw [if_pos hp]
        exact fun hs2 => hsame st h.2.1 s hs hset s2 hs2 hid
      · rw [if_neg hp]
        intro hs2
        exact hsame st h.2.1 s hs hset s2 (List.mem_of_mem_filter hs2) hid
  | addUser u =>
    exact hsame st h.2.1

/-- C9: settling an already-settled share owned by the requesting user
is not rejected — `settle_expense_share` returns `True` again, the share
stays settled with the timestamp overwritten and, when a truthy method
or reference is supplied, those fields overwritten; and the settled
state is absorbing: no API call ever clears it. -/
theorem c9_resettle_overwrite :
    (∀ (st : Store) (sh : ExpenseShare) (uid : Nat) (m r : Option String)
        (now : String),
      (st.shares.map (·.id)).Nodup → sh ∈ st.shares → sh.user_id = uid →
      sh.is_settled = true →
      (settle_expense_share st sh.id uid m r now).1 = true ∧
      { sh with is_settled := true, settled_at := some now,
                settlement_method :=
                  if truthy m then m else sh.settlement_method,
                settlement_reference :=
                  if truthy r then r else sh.settlement_reference }
        ∈ (settle_expense_share st sh.id uid m r now).2.shares) ∧
    (∀ (st st2 : Store), Wf st → Step st st2 →
      ∀ s ∈ st.shares, s.is_settled = true →
      ∀ s2 ∈ st2.shares, s2.id = s.id → s2.is_settled = true) := by
  constructor
  · intro st sh uid m r now hB hmem huid _
    have hfind : st.shares.find?
        (fun s => s.id == sh.id && s.user_id == uid) = some sh :=
      find?_eq_of_nodup_mem _ sh st.shares hB hmem (by simp [huid])
        (fun s hp => by
          simp only [Bool.and_eq_true, beq_iff_eq] at hp
          exact hp.1)
    constructor
    · unfold settle_expense_share
      rw [hfind]
    · unfold settle_expense_share
      rw [hfind]
      dsimp only
      rw [← settleShareRow_of_match sh.id uid m r now sh rfl huid]
      exact List.mem_map_of_mem _ hmem
  · intro st st2 h hstep
    exact step_absorb h hstep

/-- An already-settled share of user 2, with an earlier settlement
method recorded. -/
def c9Share : ExpenseShare :=
  { id := 1, group_expense_id := 1, user_id := 2, share_amount := 40,
    is_settled := true, settled_at := some "2024-01-03",
    settlement_method := some "Cash", settlement_reference := none }

/-- A store holding `c9Share` on a settled expense. -/
def c9Store : Store :=
  { users := [⟨1, "A"⟩, ⟨2, "B"⟩],
    expenses := [⟨1, "Cab", 40, 1, "General", "2024-01-01", "", "INR",
      true, some "2024-01-03"⟩],
    shares := [c9Share],
    next_expense_id := 2, next_share_id := 2 }

theorem c9_resettle_overwrite_witness :
    (settle_expense_share c9Store 1 2 (some "UPI") (some "R1")
      "2024-01-09").1 = true ∧
    ({ id := 1, group_expense_id := 1, user_id := 2, share_amount := 40,
       is_settled := true, settled_at := some "2024-01-09",
       settlement_method := some "UPI",
       settlement_reference := some "R1" } : ExpenseShare)
      ∈ (settle_expense_share c9Store 1 2 (some "UPI") (some "R1")
          "2024-01-09").2.shares := by
  have h := c9_resettle_overwrite.1 c9Store c9Share 2 (some "UPI")
    (some "R1") "2024-01-09" (by decide)
    (List.mem_singleton_self c9Share) rfl rfl
  simpa [truthy, c9Share] using h

/-! ### Claim C4: batch settlement -/

/-- The total amount of the unsettled shares owned by a user — the
user's outstanding debt recorded in the share table. -/
def unsettledTotal (st : Store) (uid : Nat) : ℚ :=
  ((st.shares.filter (fun s => s.user_id == uid && !s.is_settled)).map
    (·.share_amount)).sum

/-- Updating the one row with the id of `sh` changes a row-wise sum by
exactly the change at `sh`. -/
theorem sum_map_update_one (uid : Nat) (m r : Option String) (now : String)
    (F : ExpenseShare → ℚ) (sh : ExpenseShare) :
    ∀ (l : List ExpenseShare), (l.map (·.id)).Nodup → sh ∈ l →
    ((l.map (settleShareRow sh.id uid m r now)).map F).sum =
      (l.map F).sum - F sh + F (settleShareRow sh.id uid m r now sh) := by
  intro l
  induction l with
  | nil => intro _ hmem; simp at hmem
  | cons a t ih =>
    intro hnd hmem
    simp only [List.map_cons, List.nodup_cons] at hnd
    simp only [List.map_cons, List.sum_cons]
    rcases List.mem_cons.mp hmem with hmem | hmem
    · subst hmem
      have ht : t.map (settleShareRow sh.id uid m r now) = t := by
        conv_rhs => rw [← List.map_id t]
        apply List.map_congr_left
        intro x hx
        rw [id_eq, settleShareRow_of_ne sh.id uid m r now x
          (fun hxid => hnd.1 (by rw [← hxid]; exact List.mem_map_of_mem _ hx))]
      rw [ht]
      ring
    · have hane : settleShareRow sh.id uid m r now a = a := by
        apply settleShareRow_of_ne
        intro haid
        exact hnd.1 (by rw [haid]; exact List.mem_map_of_mem _ hmem)
      rw [hane, ih hnd.2 hmem]
      ring

/-- One batch-settlement step on a well-formed store: the counters grow
by exactly one, and the settled amount plus the remaining unsettled debt
of the user is invariant. -/
theorem settleManyStep_account (uid : Nat) (m r : Option String)
    (now : String) (acc : SettleResult × Store) (eid : Nat) (h : Wf acc.2) :
    (settleManyStep uid m r now acc eid).1.settled_count +
      (settleManyStep uid m r now acc eid).1.failed_count =
      acc.1.settled_count + acc.1.failed_count + 1 ∧
    (settleManyStep uid m r now acc eid).1.settled_amount +
      unsettledTotal (settleManyStep uid m r now acc eid).2 uid =
      acc.1.settled_amount + unsettledTotal acc.2 uid := by
  unfold settleManyStep
  cases hfind : acc.2.shares.find? (fun sh =>
      sh.group_expense_id == eid && sh.user_id == uid && !sh.is_settled) with
  | none =>
    dsimp only
    exact ⟨by omega, rfl⟩
  | some sh =>
    dsimp only
    have hmem := List.mem_of_find?_eq_some hfind
    have hpred := List.find?_some hfind
    simp only [Bool.and_eq_true, beq_iff_eq, Bool.not_eq_true'] at hpred
    obtain ⟨⟨hgeid, huser⟩, hunset⟩ := hpred
    have hfind2 : acc.2.shares.find?
        (fun s => s.id == sh.id && s.user_id == uid) = some sh :=
      find?_eq_of_nodup_mem _ sh acc.2.shares h.2.1 hmem (by simp [huser])
        (fun s hp => by
          simp only [Bool.and_eq_true, beq_iff_eq] at hp
          exact hp.1)
    have hok : (settle_expense_share acc.2 sh.id uid m r now).1 = true := by
      unfold settle_expense_share
      rw [hfind2]
    have hshares : (settle_expense_share acc.2 sh.id uid m r now).2.shares =
        acc.2.shares.map (settleShareRow sh.id uid m r now) := by
      unfold settle_expense_share
      rw [hfind2]
    rw [if_pos hok]
    dsimp only
    refine ⟨by omega, ?_⟩
    have htot : unsettledTotal (settle_expense_share acc.2 sh.id uid m r
        now).2 uid = unsettledTotal acc.2 uid - sh.share_amount := by
      unfold unsettledTotal
      rw [hshares]
      rw [sum_map_filter_ite, sum_map_filter_ite]
      rw [sum_map_update_one uid m r now
        (fun s => if s.user_id == uid && !s.is_settled then s.share_amount
          else 0) sh acc.2.shares h.2.1 hmem]
      have hFsh : (if sh.user_id == uid && !sh.is_settled then
          sh.share_amount else 0) = sh.share_amount := by
        rw [if_pos (by simp [huser, hunset])]
      have hFrow : (if (settleShareRow sh.id uid m r now sh).user_id == uid &&
          !(settleShareRow sh.id uid m r now sh).is_settled then
          (settleShareRow sh.id uid m r now sh).share_amount else 0) = 0 := by
        rw [if_neg]
        rw [settleShareRow_of_match sh.id uid m r now sh rfl huser]
        simp
      rw [hFsh, hFrow]
      ring
    rw [htot]
    ring

theorem settleMany_fold_account (uid : Nat) (m r : Option String)
    (now : String) :
    ∀ (ids : List Nat) (acc : SettleResult × Store), Wf acc.2 →
    ((ids.foldl (settleManyStep uid m r now) acc).1.settled_count +
      (ids.foldl (settleManyStep uid m r now) acc).1.failed_count =
      acc.1.settled_count + acc.1.failed_count + ids.length) ∧
    ((ids.foldl (settleManyStep uid m r now) acc).1.settled_amount +
      unsettledTotal (ids.foldl (settleManyStep uid m r now) acc).2 uid =
      acc.1.settled_amount + unsettledTotal acc.2 uid) := by
  intro ids
  induction ids with
  | nil =>
    intro acc _
    simp only [List.foldl_nil, List.length_nil]
    exact ⟨by omega, trivial⟩
  | cons i t ih =>
    intro acc h
    have hstep := settleManyStep_account uid m r now acc i h
    have hwf := wf_settleManyStep uid m r now acc i h
    obtain ⟨ih1, ih2⟩ := ih (settleManyStep uid m r now acc i) hwf
    constructor
    · simp only [List.foldl_cons, List.length_cons]
      omega
    · simp only [List.foldl_cons]
      rw [ih2, hstep.2]

/-- Three expenses paid by user 2; user 1 owes unsettled shares of 25
and 35 on the first two and has no share on the third. -/
def c4Store : Store :=
  { users := [⟨1, "A"⟩, ⟨2, "B"⟩],
    expenses := [⟨10, "Taxi", 50, 2, "General", "2024-01-01", "", "INR",
        false, none⟩,
      ⟨11, "Food", 70, 2, "General", "2024-01-02", "", "INR", false, none⟩,
      ⟨12, "Hotel", 90, 2, "General", "2024-01-03", "", "INR", false, none⟩],
    shares := [⟨1, 10, 1, 25, false, none, none, none⟩,
      ⟨2, 11, 1, 35, false, none, none, none⟩],
    next_expense_id := 13, next_share_id := 3 }

/-- C4: `settle_multiple_expenses` processes every id — the returned
`settled_count + failed_count` equals the number of input ids on any
well-formed store — and `settled_amount` is exactly the amount by which
the user's outstanding unsettled debt dropped, i.e. the sum of the
successfully settled share amounts; on the concrete three-id batch with
one non-matching id it returns `settled_count=2, failed_count=1` and
`settled_amount = 25 + 35`. -/
theorem c4_batch_settlement :
    (∀ (st : Store) (uid : Nat) (ids : List Nat) (m r : Option String)
        (now : String), Wf st →
      ((settle_multiple_expenses st uid ids m r now).1.settled_count +
        (settle_multiple_expenses st uid ids m r now).1.failed_count =
        ids.length) ∧
      ((settle_multiple_expenses st uid ids m r now).1.settled_amount =
        unsettledTotal st uid -
          unsettledTotal (settle_multiple_expenses st uid ids m r now).2
            uid)) ∧
    ((settle_multiple_expenses c4Store 1 [10, 11, 12] none none
        "2024-02-01").1.settled_count = 2 ∧
      (settle_multiple_expenses c4Store 1 [10, 11, 12] none none
        "2024-02-01").1.failed_count = 1 ∧
      (settle_multiple_expenses c4Store 1 [10, 11, 12] none none
        "2024-02-01").1.settled_amount = 25 + 35) := by
  constructor
  · intro st uid ids m r now h
    obtain ⟨h1, h2⟩ := settleMany_fold_account uid m r now ids (⟨0, 0, 0⟩, st) h
    unfold settle_multiple_expenses
    constructor
    · have h1b := h1
      dsimp only at h1b
      omega
    · have := h2
      dsimp only at this ⊢
      linarith
  · refine ⟨?_, ?_, ?_⟩ <;>
      norm_num [settle_multiple_expenses, settleManyStep,
        settle_expense_share, settleShareRow, settleExpenseRow,
        unsettledCount, truthy, c4Store, List.foldl_cons, List.foldl_nil]

theorem c4_batch_settlement_witness :
    (settle_multiple_expenses c4Store 1 [10, 11, 12] none none
        "2024-02-01").1.settled_count +
      (settle_multiple_expenses c4Store 1 [10, 11, 12] none none
        "2024-02-01").1.failed_count = 3 :=
  (c4_batch_settlement.1 c4Store 1 [10, 11, 12] none none "2024-02-01"
    (by unfold Wf SettledOk AllSharesSettled; decide)).1

/-! ### Claim C5: the balance aggregator -/

/-- The claim's flat characterisation of `total_owes`: the sum of the
user's unsettled share amounts on expenses paid by a different user. -/
def owesSpecSum (st : Store) (uid : Nat) : ℚ :=
  ((st.shares.filter (fun s => s.user_id == uid && !s.is_settled &&
      ((st.expenses.find? (fun e => e.id == s.group_expense_id)).elim false
        (fun e => e.payer_id != uid)))).map (·.share_amount)).sum

/-- The claim's flat characterisation of `total_owed_to_user`: the sum
of other users' unsettled share amounts on expenses this user paid. -/
def owedSpecSum (st : Store) (uid : Nat) : ℚ :=
  ((st.shares.filter (fun s => !s.is_settled && s.user_id != uid &&
      ((st.expenses.find? (fun e => e.id == s.group_expense_id)).elim false
        (fun e => e.payer_id == uid)))).map (·.share_amount)).sum

theorem sum_map_ite_beq_zero {α : Type} (key : α → Nat) (b : Nat)
    (c : α → ℚ) : ∀ (l : List α), b ∉ l.map key →
    (l.map (fun a => if key a == b then c a else 0)).sum = 0 := by
  intro l
  induction l with
  | nil => intro _; simp
  | cons a t ih =>
    intro hb
    simp only [List.map_cons, List.mem_cons, not_or] at hb
    rw [List.map_cons, List.sum_cons,
      if_neg (by simp only [beq_iff_eq]; exact fun h => hb.1 h.symm),
      ih hb.2, add_zero]

theorem sum_map_ite_beq_find {α : Type} (key : α → Nat) (b : Nat)
    (c : α → ℚ) : ∀ (l : List α), (l.map key).Nodup →
    (l.map (fun a => if key a == b then c a else 0)).sum =
      ((l.find? (fun a => key a == b)).map c).getD 0 := by
  intro l
  induction l with
  | nil => intro _; simp
  | cons a t ih =>
    intro hnd
    simp only [List.map_cons, List.nodup_cons] at hnd
    by_cases h : key a = b
    · rw [List.map_cons, List.sum_cons, if_pos (by simp [h]),
        List.find?_cons_of_pos _ (by simp [h]),
        sum_map_ite_beq_zero key b c t (by rw [← h]; exact hnd.1), add_zero]
      simp
    · rw [List.map_cons, List.sum_cons, if_neg (by simp [h]),
        List.find?_cons_of_neg _ (by simp [h]), zero_add]
      exact ih hnd.2

/-- Collapsing the three-table join of the `owes_to` query: with
duplicate-free expense and user ids and every payer present in `users`,
the row sum is the flat per-share sum of the claim. -/
theorem owesToRows_sum (st : Store) (uid : Nat)
    (hEnd : (st.expenses.map (·.id)).Nodup)
    (hUnd : (st.users.map (·.id)).Nodup)
    (hP : ∀ e ∈ st.expenses, e.payer_id ∈ st.users.map (·.id)) :
    ((owesToRows st uid).map (fun r => r.1.share_amount)).sum =
      owesSpecSum st uid := by
  unfold owesToRows owesSpecSum
  rw [sum_map_filter_ite, sum_map_flatMap, sum_map_filter_ite]
  apply congrArg List.sum
  apply List.map_congr_left
  intro s hs
  rw [sum_map_flatMap]
  simp only [List.map_map]
  by_cases hcs : s.user_id = uid ∧ s.is_settled = false
  · obtain ⟨hu, hset⟩ := hcs
    have hterm : ∀ e ∈ st.expenses,
        ((st.users.map ((fun r => if
            (r.1.group_expense_id == r.2.1.id && r.2.1.payer_id == r.2.2.id &&
             r.1.user_id == uid && !r.1.is_settled &&
             r.2.1.payer_id != uid) = true then r.1.share_amount else 0) ∘
          (fun u => (s, e, u)))).sum) =
          (if e.id == s.group_expense_id then
            (if e.payer_id != uid then s.share_amount else 0) else 0) := by
      intro e he
      by_cases hce : s.group_expense_id = e.id ∧ e.payer_id ≠ uid
      · have hmap : st.users.map ((fun r => if
            (r.1.group_expense_id == r.2.1.id && r.2.1.payer_id == r.2.2.id &&
             r.1.user_id == uid && !r.1.is_settled &&
             r.2.1.payer_id != uid) = true then r.1.share_amount else 0) ∘
            (fun u => (s, e, u))) =
            st.users.map (fun u =>
              if u.id == e.payer_id then s.share_amount else 0) :=
          List.map_congr_left (fun u _ => by
            simp only [Function.comp_apply]
            by_cases hup : e.payer_id = u.id
            · rw [if_pos (by
                  simp only [Bool.and_eq_true, beq_iff_eq, bne_iff_ne,
                    Bool.not_eq_true']
                  exact ⟨⟨⟨⟨hce.1, hup⟩, hu⟩, hset⟩, hce.2⟩),
                if_pos (by simp only [beq_iff_eq]; exact hup.symm)]
            · rw [if_neg (by
                  simp only [Bool.and_eq_true, beq_iff_eq, bne_iff_ne,
                    Bool.not_eq_true']
                  intro h
                  exact hup h.1.1.1.2),
                if_neg (by
                  simp only [beq_iff_eq]
                  exact fun h => hup h.symm)])
        rw [hmap,
          sum_map_ite_beq_find (fun u => u.id) e.payer_id
            (fun _ => s.share_amount) st.users hUnd]
        have hsome : (st.users.find? (fun u => u.id == e.payer_id)).isSome := by
          rw [List.find?_isSome]
          obtain ⟨u0, hu0, hky⟩ := List.mem_map.mp (hP e he)
          exact ⟨u0, hu0, by simp [hky]⟩
        obtain ⟨u1, hu1⟩ := Option.isSome_iff_exists.mp hsome
        rw [hu1, if_pos (by simp [hce.1]), if_pos (by simp [hce.2])]
        rfl
      · have hmap : st.users.map ((fun r => if
            (r.1.group_expense_id == r.2.1.id && r.2.1.payer_id == r.2.2.id &&
             r.1.user_id == uid && !r.1.is_settled &&
             r.2.1.payer_id != uid) = true then r.1.share_amount else 0) ∘
            (fun u => (s, e, u))) = st.users.map (fun _ => (0 : ℚ)) :=
          List.map_congr_left (fun u _ => by
            simp only [Function.comp_apply]
            rw [if_neg]
            simp only [Bool.and_eq_true, beq_iff_eq, bne_iff_ne]
            intro hPh
            exact hce ⟨hPh.1.1.1.1, hPh.2⟩)
        rw [hmap, sum_map_zero]
        by_cases h1 : e.id = s.group_expense_id
        · rw [if_pos (by simp [h1]), if_neg]
          simp only [bne_iff_ne, ne_eq, not_not]
          by_contra hne
          exact hce ⟨h1.symm, hne⟩
        · rw [if_neg (by simp [h1])]
    rw [List.map_congr_left hterm,
      sum_map_ite_beq_find (fun e => e.id) s.group_expense_id
        (fun e => if e.payer_id != uid then s.share_amount else 0)
        st.expenses hEnd]
    cases hfind : st.expenses.find? (fun e => e.id == s.group_expense_id) with
    | none => simp
    | some e0 =>
      by_cases hpe : e0.payer_id ≠ uid
      · simp [hu, hset, hpe]
      · push_neg at hpe
        simp [hu, hset, hpe]
  · have hzero : ∀ e ∈ st.expenses,
        ((st.users.map ((fun r => if
            (r.1.group_expense_id == r.2.1.id && r.2.1.payer_id == r.2.2.id &&
             r.1.user_id == uid && !r.1.is_settled &&
             r.2.1.payer_id != uid) = true then r.1.share_amount else 0) ∘
          (fun u => (s, e, u)))).sum) = 0 := by
      intro e _
      have hmap : st.users.map ((fun r => if
          (r.1.group_expense_id == r.2.1.id && r.2.1.payer_id == r.2.2.id &&
           r.1.user_id == uid && !r.1.is_settled &&
           r.2.1.payer_id != uid) = true then r.1.share_amount else 0) ∘
          (fun u => (s, e, u))) = st.users.map (fun _ => (0 : ℚ)) :=
        List.map_congr_left (fun u _ => by
          simp only [Function.comp_apply]
          rw [if_neg]
          simp only [Bool.and_eq_true, beq_iff_eq, Bool.not_eq_true']
          intro hPh
          exact hcs ⟨hPh.1.1.2, hPh.1.2⟩)
      rw [hmap, sum_map_zero]
    rw [List.map_congr_left hzero, sum_map_zero, if_neg]
    simp only [Bool.and_eq_true, beq_iff_eq, Bool.not_eq_true']
    intro hq
    exact hcs ⟨hq.1.1, hq.1.2⟩

/-- Collapsing the three-table join of the `owed_by` query: with
duplicate-free expense and user ids and every share owner present in
`users`, the row sum is the flat per-share sum of the claim. -/
theorem owedByRows_sum (st : Store) (uid : Nat)
    (hEnd : (st.expenses.map (·.id)).Nodup)
    (hUnd : (st.users.map (·.id)).Nodup)
    (hS : ∀ s ∈ st.shares, s.user_id ∈ st.users.map (·.id)) :
    ((owedByRows st uid).map (fun r => r.1.share_amount)).sum =
      owedSpecSum st uid := by
  unfold owedByRows owedSpecSum
  rw [sum_map_filter_ite, sum_map_flatMap, sum_map_filter_ite]
  apply congrArg List.sum
  apply List.map_congr_left
  intro s hs
  rw [sum_map_flatMap]
  simp only [List.map_map]
  by_cases hcs : s.is_settled = false ∧ s.user_id ≠ uid
  · obtain ⟨hset, hne⟩ := hcs
    have hterm : ∀ e ∈ st.expenses,
        ((st.users.map ((fun r => if
            (r.1.group_expense_id == r.2.1.id && r.1.user_id == r.2.2.id &&
             r.2.1.payer_id == uid && !r.1.is_settled &&
             r.1.user_id != uid) = true then r.1.share_amount else 0) ∘
          (fun u => (s, e, u)))).sum) =
          (if e.id == s.group_expense_id then
            (if e.payer_id == uid then s.share_amount else 0) else 0) := by
      intro e he
      by_cases hce : s.group_expense_id = e.id ∧ e.payer_id = uid
      · have hmap : st.users.map ((fun r => if
            (r.1.group_expense_id == r.2.1.id && r.1.user_id == r.2.2.id &&
             r.2.1.payer_id == uid && !r.1.is_settled &&
             r.1.user_id != uid) = true then r.1.share_amount else 0) ∘
            (fun u => (s, e, u))) =
            st.users.map (fun u =>
              if u.id == s.user_id then s.share_amount else 0) :=
          List.map_congr_left (fun u _ => by
            simp only [Function.comp_apply]
            by_cases hup : s.user_id = u.id
            · rw [if_pos (by
                  simp only [Bool.and_eq_true, beq_iff_eq, bne_iff_ne,
                    Bool.not_eq_true']
                  exact ⟨⟨⟨⟨hce.1, hup⟩, hce.2⟩, hset⟩, hne⟩),
                if_pos (by simp only [beq_iff_eq]; exact hup.symm)]
            · rw [if_neg (by
                  simp only [Bool.and_eq_true, beq_iff_eq, bne_iff_ne,
                    Bool.not_eq_true']
                  intro h
                  exact hup h.1.1.1.2),
                if_neg (by
                  simp only [beq_iff_eq]
                  exact fun h => hup h.symm)])
        rw [hmap,
          sum_map_ite_beq_find (fun u => u.id) s.user_id
            (fun _ => s.share_amount) st.users hUnd]
        have hsome : (st.users.find? (fun u => u.id == s.user_id)).isSome := by
          rw [List.find?_isSome]
          obtain ⟨u0, hu0, hky⟩ := List.mem_map.mp (hS s hs)
          exact ⟨u0, hu0, by simp [hky]⟩
        obtain ⟨u1, hu1⟩ := Option.isSome_iff_exists.mp hsome
        rw [hu1, if_pos (by simp [hce.1]), if_pos (by simp [hce.2])]
        rfl
      · have hmap : st.users.map ((fun r => if
            (r.1.group_expense_id == r.2.1.id && r.1.user_id == r.2.2.id &&
             r.2.1.payer_id == uid && !r.1.is_settled &&
             r.1.user_id != uid) = true then r.1.share_amount else 0) ∘
            (fun u => (s, e, u))) = st.users.map (fun _ => (0 : ℚ)) :=
          List.map_congr_left (fun u _ => by
            simp only [Function.comp_apply]
            rw [if_neg]
            simp only [Bool.and_eq_true, beq_iff_eq, bne_iff_ne]
            intro hPh
            exact hce ⟨hPh.1.1.1.1, hPh.1.1.2⟩)
        rw [hmap, sum_map_zero]
        by_cases h1 : e.id = s.group_expense_id
        · rw [if_pos (by simp [h1]), if_neg]
          simp only [beq_iff_eq]
          exact fun hpu => hce ⟨h1.symm, hpu⟩
        · rw [if_neg (by simp [h1])]
    rw [List.map_congr_left hterm,
      sum_map_ite_beq_find (fun e => e.id) s.group_expense_id
        (fun e => if e.payer_id == uid then s.share_amount else 0)
        st.expenses hEnd]
    cases hfind : st.expenses.find? (fun e => e.id == s.group_expense_id) with
    | none => simp
    | some e0 =>
      by_cases hpe : e0.payer_id = uid
      · simp [hset, hne, hpe]
      · simp [hset, hne, hpe]
  · have hzero : ∀ e ∈ st.expenses,
        ((st.users.map ((fun r => if
            (r.1.group_expense_id == r.2.1.id && r.1.user_id == r.2.2.id &&
             r.2.1.payer_id == uid && !r.1.is_settled &&
             r.1.user_id != uid) = true then r.1.share_amount else 0) ∘
          (fun u => (s, e, u)))).sum) = 0 := by
      intro e _
      have hmap : st.users.map ((fun r => if
          (r.1.group_expense_id == r.2.1.id && r.1.user_id == r.2.2.id &&
           r.2.1.payer_id == uid && !r.1.is_settled &&
           r.1.user_id != uid) = true then r.1.share_amount else 0) ∘
          (fun u => (s, e, u))) = st.users.map (fun _ => (0 : ℚ)) :=
        List.map_congr_left (fun u _ => by
          simp only [Function.comp_apply]
          rw [if_neg]
          simp only [Bool.and_eq_true, beq_iff_eq, bne_iff_ne,
            Bool.not_eq_true']
          intro hPh
          exact hcs ⟨hPh.1.2, hPh.2⟩)
      rw [hmap, sum_map_zero]
    rw [List.map_congr_left hzero, sum_map_zero, if_neg]
    simp only [Bool.and_eq_true, beq_iff_eq, bne_iff_ne, Bool.not_eq_true']
    intro hq
    exact hcs ⟨hq.1.1, hq.1.2⟩

theorem total_owes_eq (st : Store) (uid : Nat)
    (hEnd : (st.expenses.map (·.id)).Nodup)
    (hUnd : (st.users.map (·.id)).Nodup)
    (hP : ∀ e ∈ st.expenses, e.payer_id ∈ st.users.map (·.id)) :
    (get_user_balance_summary st uid).total_owes = owesSpecSum st uid := by
  have h1 : (get_user_balance_summary st uid).total_owes =
      ((owes_to st uid).map (fun x => x.total_owed)).sum := rfl
  have h2 : (owes_to st uid).map (fun x => x.total_owed) =
      (groupSums (fun r => (r.2.1.payer_id, r.2.2.name))
        (fun r => r.1.share_amount) (owesToRows st uid)).map
        (fun g => g.2) := by
    unfold owes_to
    rw [List.map_map]
    rfl
  rw [h1, h2, sum_groupSums]
  exact owesToRows_sum st uid hEnd hUnd hP

theorem total_owed_to_user_eq (st : Store) (uid : Nat)
    (hEnd : (st.expenses.map (·.id)).Nodup)
    (hUnd : (st.users.map (·.id)).Nodup)
    (hS : ∀ s ∈ st.shares, s.user_id ∈ st.users.map (·.id)) :
    (get_user_balance_summary st uid).total_owed_to_user =
      owedSpecSum st uid := by
  have h1 : (get_user_balance_summary st uid).total_owed_to_user =
      ((owed_by st uid).map (fun x => x.total_owed_to_user)).sum := rfl
  have h2 : (owed_by st uid).map (fun x => x.total_owed_to_user) =
      (groupSums (fun r => (r.1.user_id, r.2.2.name))
        (fun r => r.1.share_amount) (owedByRows st uid)).map
        (fun g => g.2) := by
    unfold owed_by
    rw [List.map_map]
    rfl
  rw [h1, h2, sum_groupSums]
  exact owedByRows_sum st uid hEnd hUnd hS

/-- The two-user scenario of the claim: A (id 1) paid 100, B (id 2)
owes a single unsettled 40 share. -/
def c5StoreA : Store :=
  { users := [⟨1, "A"⟩, ⟨2, "B"⟩],
    expenses := [⟨1, "Dinner", 100, 1, "General", "2024-01-01", "", "INR",
      false, none⟩],
    shares := [⟨1, 1, 2, 40, false, none, none, none⟩],
    next_expense_id := 2, next_share_id := 2 }

/-- The scenario store after B settles their share. -/
def c5StoreB : Store :=
  (settle_expense_share c5StoreA 1 2 none none "2024-01-10").2

/-- C5: in the scenario, `balance_summary(A).total_owed_to_user = 40`
and `balance_summary(B).total_owes = 40`; after B settles their share
both are 0 and the expense is settled.  In general (for duplicate-free
ids with payers and share owners present in `users`), `total_owes` is
the flat sum of the user's unsettled share amounts on expenses paid by
someone else, `total_owed_to_user` is the symmetric flat sum over other
users' unsettled shares on expenses this user paid, and
`net_balance = total_owed_to_user - total_owes`. -/
theorem c5_balance_symmetry :
    ((get_user_balance_summary c5StoreA 1).total_owed_to_user = 40) ∧
    ((get_user_balance_summary c5StoreA 2).total_owes = 40) ∧
    ((settle_expense_share c5StoreA 1 2 none none "2024-01-10").1 = true) ∧
    ((get_user_balance_summary c5StoreB 1).total_owed_to_user = 0) ∧
    ((get_user_balance_summary c5StoreB 2).total_owes = 0) ∧
    (c5StoreB.expenses.map (·.is_settled) = [true]) ∧
    (∀ (st : Store) (uid : Nat),
      (st.expenses.map (·.id)).Nodup → (st.users.map (·.id)).Nodup →
      (∀ e ∈ st.expenses, e.payer_id ∈ st.users.map (·.id)) →
      (get_user_balance_summary st uid).total_owes = owesSpecSum st uid) ∧
    (∀ (st : Store) (uid : Nat),
      (st.expenses.map (·.id)).Nodup → (st.users.map (·.id)).Nodup →
      (∀ s ∈ st.shares, s.user_id ∈ st.users.map (·.id)) →
      (get_user_balance_summary st uid).total_owed_to_user =
        owedSpecSum st uid) ∧
    (∀ (st : Store) (uid : Nat),
      (get_user_balance_summary st uid).net_balance =
        (get_user_balance_summary st uid).total_owed_to_user -
          (get_user_balance_summary st uid).total_owes) := by
  refine ⟨?_, ?_, ?_, ?_, ?_, ?_, ?_, ?_, ?_⟩
  · norm_num [get_user_balance_summary, owed_by, owedByRows, groupSums,
      c5StoreA, List.dedup]
  · norm_num [get_user_balance_summary, owes_to, owesToRows, groupSums,
      c5StoreA, List.dedup]
  · norm_num [settle_expense_share, c5StoreA]
  · norm_num [get_user_balance_summary, owed_by, owedByRows, groupSums,
      c5StoreB, c5StoreA, settle_expense_share, settleShareRow,
      settleExpenseRow, unsettledCount, truthy, List.dedup]
  · norm_num [get_user_balance_summary, owes_to, owesToRows, groupSums,
      c5StoreB, c5StoreA, settle_expense_share, settleShareRow,
      settleExpenseRow, unsettledCount, truthy, List.dedup]
  · norm_num [c5StoreB, c5StoreA, settle_expense_share, settleShareRow,
      settleExpenseRow, unsettledCount, truthy]
  · exact total_owes_eq
  · exact total_owed_to_user_eq
  · intro st uid
    rfl

theorem c5_balance_symmetry_witness :
    (get_user_balance_summary c5StoreA 2).total_owes =
      owesSpecSum c5StoreA 2 :=
  c5_balance_symmetry.2.2.2.2.2.2.1 c5StoreA 2 (by decide) (by decide)
    (by decide)

/-! ### Claims C6 and C10: equal split -/

/-- C6: the equal-split policy of the Group Expenses page divides the
total rounded to 2 decimals, gives the remainder
`total - per_head * (count - 1)` to the current user, and the shares
then sum exactly to the total; `equal_split(100, 3)` gives the two
others 33.33 each and the current user 33.34, summing exactly to 100. -/
theorem c6_equal_split :
    (∀ (amount : ℚ) (n : Nat), n ≠ 0 →
      ∃ per own, equal_split amount n = some (per, own) ∧
        per = round2 (amount / (n : ℚ)) ∧
        own = amount - per * ((n - 1 : Nat) : ℚ) ∧
        per * ((n - 1 : Nat) : ℚ) + own = amount) ∧
    (equal_split 100 3 = some (3333 / 100, 1667 / 50)) ∧
    (calculate_equal_shares 100 3 = some (3333 / 100)) ∧
    ((3333 : ℚ) / 100 + 3333 / 100 + 1667 / 50 = 100) := by
  refine ⟨?_, ?_, ?_, ?_⟩
  · intro amount n hn
    refine ⟨round2 (amount / (n : ℚ)),
      amount - round2 (amount / (n : ℚ)) * ((n - 1 : Nat) : ℚ), ?_, rfl, rfl,
      by ring⟩
    simp [equal_split, hn]
  · norm_num [equal_split, round2]
  · norm_num [calculate_equal_shares, round2]
  · norm_num

theorem c6_equal_split_witness :
    round2 (100 / (3 : ℚ)) * ((3 - 1 : Nat) : ℚ) +
      (100 - round2 (100 / (3 : ℚ)) * ((3 - 1 : Nat) : ℚ)) = 100 := by
  obtain ⟨per, own, _, hper, hown, hsum⟩ :=
    c6_equal_split.1 100 3 (by norm_num)
  subst hper
  subst hown
  exact hsum

/-- C10: `calculate_equal_shares` divides by `user_count` without a
guard — for every nonzero count it returns
`round(amount / user_count, 2)`, and for `user_count = 0` the Python
call raises `ZeroDivisionError` instead of returning a value (modelled
as `none`). -/
theorem c10_division_guard :
    (∀ (amount : ℚ), calculate_equal_shares amount 0 = none) ∧
    (∀ (amount : ℚ) (n : Nat), n ≠ 0 →
      calculate_equal_shares amount n =
        some (round2 (amount / (n : ℚ)))) := by
  constructor
  · intro amount
    simp [calculate_equal_shares]
  · intro amount n hn
    simp [calculate_equal_shares, hn]

theorem c10_division_guard_witness :
    calculate_equal_shares 100 3 = some (round2 (100 / (3 : ℚ))) :=
  c10_division_guard.2 100 3 (by norm_num)

end Walletwise
